import Mathlib

/-!
Verification of the AlgoraCore incidence-list graph storage engine and its
BFS/DFS consumers, as a shallow embedding of the C++ sources:
`incidencelistgraphimplementation.cpp`, `incidencelistvertex.cpp`, the
breadth-first-search and depth-first-search headers.

Machine integers (`size_type`) are modelled as `Nat`; the shared
`FastPropertyMap<size_type>` index maps with default `NO_INDEX` are modelled
as functions `Nat → Nat`; pointers are modelled by identity numbers; and
`std::vector` is `List` with `push_back = · ++ [x]`, `pop_back = dropLast`,
`back = getLast`.
-/

namespace AlgoraCore

/-- Default value of the shared index maps: `NO_INDEX`
(`std::numeric_limits<size_type>::max()` for 64-bit `size_type`). -/
def NO_INDEX : Nat := 18446744073709551615

/-! ### Generic list-position machinery

`removeArcFromList` in `incidencelistvertex.cpp` removes an element at the
position recorded in the index map by overwriting that slot with the last
element and popping the back.  Under the adjacency-index invariant (claim C2)
the recorded position of a present element is its actual position, so the
graph-level embedding resolves the lookup to the first index of the element.
-/

/-- First position of `a` in `l`, if any (the position the index map records
for an attached element under the invariant of claim C2). -/
def findIndex {α : Type} [DecidableEq α] : List α → α → Option Nat
  | [], _ => none
  | x :: xs, a => if x = a then some 0 else (findIndex xs a).map (· + 1)

/-- Swap-removal: overwrite the slot of `a` with the last element and pop the
back (`removeArcFromList` with the index lookup resolved to the position of
`a`); the list is returned unchanged when `a` does not occur. -/
def swapRemove {α : Type} [DecidableEq α] (l : List α) (a : α) : List α :=
  match findIndex l a, l.getLast? with
  | some i, some z => (l.set i z).dropLast
  | _, _ => l

/-! ### The adjacency list with its index map (claim C2)

`IncidenceListVertex` keeps, for each adjacency list, a map from arc identity
to the slot the arc occupies (`outIndex`/`inIndex`, shared across vertices,
with default `NO_INDEX`).  `addOutgoingSimpleArc` records the index and
appends; `removeArcFromList` is the generic swap-removal used by every
removal path.  Arcs are modelled by records carrying identity, endpoints and
the `MultiArc` dynamic type. -/

/-- An arc as seen by a vertex: identity, endpoint identities and whether it
is a `MultiArc` (`dynamic_cast<MultiArc*>` succeeds). -/
structure CArc where
  aid : Nat
  tail : Nat
  head : Nat
  isMulti : Bool
deriving DecidableEq, Repr

/-- State of one adjacency list together with its index map. -/
structure ArcListState where
  list : List CArc
  indexMap : Nat → Nat

/-- `addOutgoingSimpleArc` lines 167-168: record the index (= current size),
then `push_back`. -/
def addArcToList (s : ArcListState) (a : CArc) : ArcListState :=
  { list := s.list ++ [a],
    indexMap := fun x => if x = a.aid then s.list.length else s.indexMap x }

/-- `removeArcFromList` (incidencelistvertex.cpp lines 613-626): look up the
recorded index `i`; fail if out of range or the slot holds a different arc;
otherwise overwrite slot `i` with the back element, record the back element's
new index, reset the removed arc's entry to the default, and pop the back.
Returns the `bool` result together with the new list and map. -/
def removeArcFromList (list : List CArc) (im : Nat → Nat) (arc : CArc) :
    Bool × List CArc × (Nat → Nat) :=
  let i := im arc.aid
  if h : i < list.length then
    if list[i] = arc then
      match list.getLast? with
      | none => (false, list, im)
      | some swap =>
        (true, (list.set i swap).dropLast,
         fun x => if x = arc.aid then NO_INDEX else if x = swap.aid then i else im x)
    else (false, list, im)
  else (false, list, im)

/-- One structural-mutation call affecting a vertex's outgoing simple-arc
list: `addOutgoingSimpleArc` via `addArc` (always with a freshly created or
recycled arc object), or `removeOutgoingArc` via `removeArc`. -/
inductive ArcOp where
  | add (a : CArc)
  | remove (a : CArc)

/-- Run one call.  An `add` whose arc identity is already attached is skipped:
the graph only ever attaches freshly created or recycled arc objects. -/
def runArcOp (s : ArcListState) : ArcOp → ArcListState
  | .add a => if s.list.any (fun e => e.aid = a.aid) then s else addArcToList s a
  | .remove a =>
    let r := removeArcFromList s.list s.indexMap a
    { list := r.2.1, indexMap := r.2.2 }

/-- The empty adjacency list with the all-default shared index map. -/
def emptyArcListState : ArcListState := { list := [], indexMap := fun _ => NO_INDEX }

/-- Run a sequence of add/remove calls from the empty adjacency. -/
def runArcOps (ops : List ArcOp) : ArcListState :=
  ops.foldl runArcOp emptyArcListState

/-- The index-map/list agreement invariant of claim C2. -/
def ArcListInv (s : ArcListState) : Prop :=
  (∀ i (h : i < s.list.length), s.indexMap s.list[i].aid = i)
  ∧ (∀ x, (∀ e ∈ s.list, e.aid ≠ x) → s.indexMap x = NO_INDEX)

/-! ### The vertex adjacency state (claims C5, C6, C9)

`IncidenceListVertex::CheshireCat` owns the four live lists, their
deactivated shadow counterparts, the bundle-membership map and the four index
maps (`outIndex`/`inIndex` shared across vertices, `multiOutIndex`/
`multiInIndex` private).  The bundle map is modelled as arc identity ↦ bundle
identity; the member list held by a `ParallelArcsBundle` object is not
modelled here (claims C5, C6 and C9 do not depend on it). -/

structure CheshireCat where
  vid : Nat
  index : Nat
  checkConsisteny : Bool
  valid : Bool
  outgoingArcs : List CArc
  incomingArcs : List CArc
  outgoingMultiArcs : List CArc
  incomingMultiArcs : List CArc
  deactivatedOutgoingArcs : List CArc
  deactivatedIncomingArcs : List CArc
  deactivatedOutgoingMultiArcs : List CArc
  deactivatedIncomingMultiArcs : List CArc
  outIndex : Nat → Nat
  inIndex : Nat → Nat
  multiOutIndex : Nat → Nat
  multiInIndex : Nat → Nat
  bundle : Nat → Option Nat

/-- `PropertyMap::resetToDefault` on an index map. -/
def resetIndex (im : Nat → Nat) (x : Nat) : Nat → Nat :=
  fun y => if y = x then NO_INDEX else im y

/-- `CheshireCat::clear` (incidencelistvertex.cpp lines 84-104), modelled
verbatim: the first loop resets the out-index entry of each outgoing arc; the
second loop iterates over `incomingArcs` but again resets the OUT-index map
(source lines 88-90); all eight lists are cleared; `multiOutIndex`,
`multiInIndex` and the bundle map are bulk-reset. -/
def CheshireCat.clear (c : CheshireCat) : CheshireCat :=
  let outIdx1 := c.outgoingArcs.foldl (fun im a => resetIndex im a.aid) c.outIndex
  let outIdx2 := c.incomingArcs.foldl (fun im a => resetIndex im a.aid) outIdx1
  { c with
    outgoingArcs := [], incomingArcs := [],
    outgoingMultiArcs := [], incomingMultiArcs := [],
    deactivatedOutgoingArcs := [], deactivatedIncomingArcs := [],
    deactivatedOutgoingMultiArcs := [], deactivatedIncomingMultiArcs := [],
    outIndex := outIdx2,
    multiOutIndex := fun _ => NO_INDEX,
    multiInIndex := fun _ => NO_INDEX,
    bundle := fun _ => none }

/-- `IncidenceListVertex::hibernate`: invalidate, reset the name (the name is
not modelled) and clear the adjacency state. -/
def CheshireCat.hibernate (c : CheshireCat) : CheshireCat :=
  CheshireCat.clear { c with valid := false }

/-- `IncidenceListVertex::recycle`: revalidate (adjacency already empty). -/
def CheshireCat.recycle (c : CheshireCat) : CheshireCat :=
  { c with valid := true }

/-- `addOutgoingSimpleArc` (lines 159-169): throw on an endpoint mismatch when
consistency checking is on; otherwise record the index and append.  The pair
returns the call's outcome together with the state of the object after the
call (unchanged when the exception is thrown). -/
def CheshireCat.addOutgoingSimpleArc (c : CheshireCat) (a : CArc) :
    Except String Unit × CheshireCat :=
  if c.checkConsisteny ∧ a.tail ≠ c.vid then (Except.error "Arc has other tail.", c)
  else (Except.ok (),
    { c with
      outIndex := fun x => if x = a.aid then c.outgoingArcs.length else c.outIndex x,
      outgoingArcs := c.outgoingArcs ++ [a] })

/-- `addIncomingSimpleArc` (lines 250-260), the incoming twin. -/
def CheshireCat.addIncomingSimpleArc (c : CheshireCat) (a : CArc) :
    Except String Unit × CheshireCat :=
  if c.checkConsisteny ∧ a.head ≠ c.vid then (Except.error "Arc has other head.", c)
  else (Except.ok (),
    { c with
      inIndex := fun x => if x = a.aid then c.incomingArcs.length else c.inIndex x,
      incomingArcs := c.incomingArcs ++ [a] })

/-- `removeOutgoingArc` (lines 171-179): try the simple list, then the
multi-arc list, then the bundle map.  A successful bundle hit resets the
bundle-map entry (the member removal inside the shared bundle object is not
tracked here). -/
def CheshireCat.removeOutgoingArc (c : CheshireCat) (a : CArc) :
    Except String (Bool × CheshireCat) :=
  if c.checkConsisteny ∧ a.tail ≠ c.vid then Except.error "Arc has other tail."
  else
    let r1 := removeArcFromList c.outgoingArcs c.outIndex a
    if r1.1 then Except.ok (true, { c with outgoingArcs := r1.2.1, outIndex := r1.2.2 })
    else
      let r2 := removeArcFromList c.outgoingMultiArcs c.multiOutIndex a
      if r2.1 then
        Except.ok (true, { c with outgoingMultiArcs := r2.2.1, multiOutIndex := r2.2.2 })
      else
        match c.bundle a.aid with
        | none => Except.ok (false, c)
        | some _ =>
          Except.ok (true, { c with bundle := fun x => if x = a.aid then none else c.bundle x })

/-- `removeIncomingArc` (lines 262-270), the incoming twin. -/
def CheshireCat.removeIncomingArc (c : CheshireCat) (a : CArc) :
    Except String (Bool × CheshireCat) :=
  if c.checkConsisteny ∧ a.head ≠ c.vid then Except.error "Arc has other head."
  else
    let r1 := removeArcFromList c.incomingArcs c.inIndex a
    if r1.1 then Except.ok (true, { c with incomingArcs := r1.2.1, inIndex := r1.2.2 })
    else
      let r2 := removeArcFromList c.incomingMultiArcs c.multiInIndex a
      if r2.1 then
        Except.ok (true, { c with incomingMultiArcs := r2.2.1, multiInIndex := r2.2.2 })
      else
        match c.bundle a.aid with
        | none => Except.ok (false, c)
        | some _ =>
          Except.ok (true, { c with bundle := fun x => if x = a.aid then none else c.bundle x })

/-- `deactivateOutgoingArc` (lines 328-342): detach via `removeOutgoingArc`,
then append to the matching deactivated list, recording the destination index
(`deactivatedOutgoingMultiArcs.size()` for a multi-arc,
`deactivatedOutgoingArcs.size()` for a simple arc). -/
def CheshireCat.deactivateOutgoingArc (c : CheshireCat) (a : CArc) :
    Except String (Bool × CheshireCat) :=
  match c.removeOutgoingArc a with
  | Except.error e => Except.error e
  | Except.ok (false, c1) => Except.ok (false, c1)
  | Except.ok (true, c1) =>
    if a.isMulti then
      Except.ok (true, { c1 with
        multiOutIndex := fun x => if x = a.aid
          then c1.deactivatedOutgoingMultiArcs.length else c1.multiOutIndex x,
        deactivatedOutgoingMultiArcs := c1.deactivatedOutgoingMultiArcs ++ [a] })
    else
      Except.ok (true, { c1 with
        outIndex := fun x => if x = a.aid
          then c1.deactivatedOutgoingArcs.length else c1.outIndex x,
        deactivatedOutgoingArcs := c1.deactivatedOutgoingArcs ++ [a] })

/-- `deactivateIncomingArc` (lines 344-358), modelled verbatim: in the
multi-arc branch the source records `deactivatedIncomingArcs.size()` (line
351) although the arc is appended to `deactivatedIncomingMultiArcs`. -/
def CheshireCat.deactivateIncomingArc (c : CheshireCat) (a : CArc) :
    Except String (Bool × CheshireCat) :=
  match c.removeIncomingArc a with
  | Except.error e => Except.error e
  | Except.ok (false, c1) => Except.ok (false, c1)
  | Except.ok (true, c1) =>
    if a.isMulti then
      Except.ok (true, { c1 with
        multiInIndex := fun x => if x = a.aid
          then c1.deactivatedIncomingArcs.length else c1.multiInIndex x,
        deactivatedIncomingMultiArcs := c1.deactivatedIncomingMultiArcs ++ [a] })
    else
      Except.ok (true, { c1 with
        inIndex := fun x => if x = a.aid
          then c1.deactivatedIncomingArcs.length else c1.inIndex x,
        deactivatedIncomingArcs := c1.deactivatedIncomingArcs ++ [a] })

/-- A vertex with no adjacency, all index maps at the default and both
endpoint-consistency checking and validity on. -/
def emptyVertex (vid : Nat) : CheshireCat :=
  { vid := vid, index := 0, checkConsisteny := true, valid := true,
    outgoingArcs := [], incomingArcs := [],
    outgoingMultiArcs := [], incomingMultiArcs := [],
    deactivatedOutgoingArcs := [], deactivatedIncomingArcs := [],
    deactivatedOutgoingMultiArcs := [], deactivatedIncomingMultiArcs := [],
    outIndex := fun _ => NO_INDEX, inIndex := fun _ => NO_INDEX,
    multiOutIndex := fun _ => NO_INDEX, multiInIndex := fun _ => NO_INDEX,
    bundle := fun _ => none }

/-- Failing input for claim C5: a vertex (id 0) holding one incoming simple
arc with identity 3 at slot 0 of `incomingArcs`, in-index entry recorded. -/
def c5vertex : CheshireCat :=
  { emptyVertex 0 with
    incomingArcs := [⟨3, 1, 0, false⟩],
    inIndex := fun x => if x = 3 then 0 else NO_INDEX }

/-- Failing input for claim C6: a vertex (id 0) with one already-deactivated
incoming simple arc (identity 5) and one attached incoming multi-arc
(identity 7) at slot 0 of `incomingMultiArcs`. -/
def c6vertex : CheshireCat :=
  { emptyVertex 0 with
    incomingMultiArcs := [⟨7, 1, 0, true⟩],
    multiInIndex := fun x => if x = 7 then 0 else NO_INDEX,
    deactivatedIncomingArcs := [⟨5, 2, 0, false⟩],
    inIndex := fun x => if x = 5 then 0 else NO_INDEX }

/-- The attached incoming multi-arc of `c6vertex`. -/
def c6arc : CArc := ⟨7, 1, 0, true⟩

/-! ### The graph implementation state (claims C1, C4, C10)

`IncidenceListGraphImplementation` owns the live vertex sequence, the arc
records, the arc/vertex pools, the live arc counter and the id counters.
Adjacency lists store arc identities; the shared index maps are not repeated
here — removals act at the positions the maps record, which agree with the
actual positions by claim C2 — so `removeIncomingArc`/`removeOutgoingArc`
resolve to `swapRemove` on the stored list.  Multi-arcs do not occur in the
states these claims quantify over, so only the simple lists are carried. -/

/-- A vertex record: identity, parent graph, dense index, validity and the
simple adjacency lists (arc identities). -/
structure VRec where
  vid : Nat
  parent : Nat
  index : Nat
  valid : Bool
  outArcs : List Nat
  incArcs : List Nat
deriving DecidableEq, Repr

/-- An arc record: identity, endpoints (vertex identities), validity. -/
structure ARec where
  aid : Nat
  tail : Nat
  head : Nat
  avalid : Bool
deriving DecidableEq, Repr

/-- The `IncidenceListGraphImplementation` state. -/
structure GState where
  graphId : Nat
  vertices : List VRec
  arcs : List ARec
  numArcs : Nat
  nextVertexId : Nat
  arcPool : List Nat
  vertexPool : List Nat
deriving Repr

/-- Dereference an arc identity (`a->getHead()` etc. read the record). -/
def lookupArc (g : GState) (a : Nat) : Option ARec :=
  g.arcs.find? (fun r => r.aid = a)

/-- `a->getHead()` as a vertex identity. -/
def headOf (g : GState) (a : Nat) : Nat :=
  ((lookupArc g a).map ARec.head).getD 0

/-- `a->getTail()` as a vertex identity. -/
def tailOf (g : GState) (a : Nat) : Nat :=
  ((lookupArc g a).map ARec.tail).getD 0

/-- Mutate the vertex object with identity `t` in place. -/
def updateVertexById (vs : List VRec) (t : Nat) (f : VRec → VRec) : List VRec :=
  vs.map (fun w => if w.vid = t then f w else w)

/-- `a->hibernate(); arcPool.push_back(a); numArcs--` as performed by
`removeVertex` and `removeArc`. -/
def hibernateArc (g : GState) (a : Nat) : GState :=
  { g with
    arcs := g.arcs.map (fun r => if r.aid = a then { r with avalid := false } else r),
    arcPool := g.arcPool ++ [a],
    numArcs := g.numArcs - 1 }

/-- One iteration of the first loop of `removeVertex` (lines 205-212): detach
the outgoing arc from its head's incoming adjacency, hibernate it into the
arc pool, decrement the live arc count. -/
def removeVertexOutStep (g : GState) (a : Nat) : GState :=
  hibernateArc
    { g with vertices := (updateVertexById g.vertices (headOf g a)
        (fun w => { w with incArcs := swapRemove w.incArcs a })) } a

/-- One iteration of the second loop of `removeVertex` (lines 214-221):
detach the incoming arc from its tail's outgoing adjacency, hibernate it. -/
def removeVertexInStep (g : GState) (a : Nat) : GState :=
  hibernateArc
    { g with vertices := (updateVertexById g.vertices (tailOf g a)
        (fun w => { w with outArcs := swapRemove w.outArcs a })) } a

/-- Dereference a vertex identity. -/
def findVertex (g : GState) (t : Nat) : Option VRec :=
  g.vertices.find? (fun w => w.vid = t)

/-- `removeVertex` (incidencelistgraphimplementation.cpp lines 203-230):
detach and hibernate every outgoing arc, clear the outgoing lists, the same
for the incoming arcs that remain (a self-loop is gone after the first
phase), then remove `v` from the live sequence by writing the back vertex
into `v`'s slot with its index updated and popping, and hibernate `v` into
the vertex pool.  The second loop reads `v`'s incoming list through the
object, i.e. after the first phase's mutations. -/
def removeVertexDetachArcs (g : GState) (v : VRec) : GState :=
  let g1 := v.outArcs.foldl removeVertexOutStep g
  let g2 := { g1 with vertices := (updateVertexById g1.vertices v.vid
                (fun w => { w with outArcs := [] })) }
  let g3 := (((findVertex g2 v.vid).map VRec.incArcs).getD []).foldl
    removeVertexInStep g2
  { g3 with vertices := (updateVertexById g3.vertices v.vid
      (fun w => { w with incArcs := [] })) }

def removeVertex (g : GState) (v : VRec) : GState :=
  let g4 := removeVertexDetachArcs g v
  match g4.vertices.getLast? with
  | none => { g4 with vertexPool := g4.vertexPool ++ [v.vid] }
  | some o =>
    { g4 with
      vertices := (g4.vertices.set v.index { o with index := v.index }).dropLast,
      vertexPool := g4.vertexPool ++ [v.vid] }

/-- `addVertex` (lines 197-201): `vertex->setIndex(vertices.size());
vertices.push_back(vertex)`. -/
def addVertex (g : GState) (v : VRec) : GState :=
  { g with vertices := g.vertices ++ [{ v with index := g.vertices.length }] }

/-- `recycleOrCreateIncidenceListVertex` (lines 451-476): pop the back of the
vertex pool and recycle (revalidate; adjacency already empty), else construct
a fresh vertex with the next id and this graph as parent. -/
def recycleOrCreateIncidenceListVertex (g : GState) : VRec × GState :=
  match g.vertexPool.getLast? with
  | some i =>
    (⟨i, g.graphId, 0, true, [], []⟩, { g with vertexPool := g.vertexPool.dropLast })
  | none =>
    (⟨g.nextVertexId, g.graphId, 0, true, [], []⟩,
     { g with nextVertexId := g.nextVertexId + 1 })

/-- One graph-level call of claim C1: `addVertex()` (on a recycled or fresh
vertex), or `removeVertex` on the live vertex at position `k` (the public
API removes only contained vertices). -/
inductive GOp where
  | addV
  | removeV (k : Nat)

def runGOp (g : GState) : GOp → GState
  | .addV =>
    let p := recycleOrCreateIncidenceListVertex g
    addVertex p.2 p.1
  | .removeV k =>
    if h : k < g.vertices.length then removeVertex g g.vertices[k] else g

/-- A freshly constructed graph implementation. -/
def initialGState : GState :=
  { graphId := 0, vertices := [], arcs := [], numArcs := 0, nextVertexId := 0,
    arcPool := [], vertexPool := [] }

def runGOps (ops : List GOp) : GState := ops.foldl runGOp initialGState

/-- Errors surfacing from positional lookups. -/
inductive GErr where
  | outOfRange
deriving DecidableEq, Repr

/-- `std::vector::at`: positional lookup that throws `std::out_of_range`. -/
def atVertex (l : List VRec) (i : Nat) : Except GErr VRec :=
  if h : i < l.length then Except.ok l[i] else Except.error GErr.outOfRange

/-- `containsVertex` (lines 232-235): `v->getParent() == graph &&
vertices.at(v->getIndex()) == v` with `&&` short-circuit. -/
def containsVertex (g : GState) (v : VRec) : Except GErr Bool :=
  if v.parent = g.graphId then
    match atVertex g.vertices v.index with
    | Except.ok w => Except.ok (decide (w = v))
    | Except.error e => Except.error e
  else Except.ok false

/-- The incident arcs of `v`, one entry per arc: all outgoing arcs, then the
incoming arcs that are not also outgoing (a self-loop is processed once, by
the first loop of `removeVertex`). -/
def incidentArcs (v : VRec) : List Nat :=
  v.outArcs ++ v.incArcs.filter (fun a => decide (a ∉ v.outArcs))

/-- Projection dropping the incoming adjacency (the only vertex field the
first `removeVertex` loop touches). -/
def eraseInc (w : VRec) : VRec := { w with incArcs := [] }

/-- Projection dropping the outgoing adjacency. -/
def eraseOut (w : VRec) : VRec := { w with outArcs := [] }

/-- Well-formedness of a graph state: vertex identities unique; indices
dense; incoming lists duplicate-free; the concatenation of all outgoing
lists duplicate-free (each arc hangs off one tail, once); every attached arc
resolves to a record naming the holding vertex as its tail/head; every
incoming arc is attached to some vertex's outgoing list; and the live arc
counter counts the outgoing-list entries. -/
def WF (g : GState) : Prop :=
  (g.vertices.map VRec.vid).Nodup
  ∧ g.vertices.map VRec.index = List.range g.vertices.length
  ∧ (∀ w ∈ g.vertices, w.incArcs.Nodup)
  ∧ ((g.vertices.map VRec.outArcs).flatten).Nodup
  ∧ (∀ w ∈ g.vertices, ∀ a ∈ w.outArcs, (lookupArc g a).map ARec.tail = some w.vid)
  ∧ (∀ w ∈ g.vertices, ∀ a ∈ w.incArcs, (lookupArc g a).map ARec.head = some w.vid)
  ∧ (∀ w ∈ g.vertices, ∀ a ∈ w.incArcs, ∃ u ∈ g.vertices, a ∈ u.outArcs)
  ∧ g.numArcs = ((g.vertices.map VRec.outArcs).flatten).length

/-- Density of the live vertex sequence (claim C1), as one equation: the
stored indices, in order, are `0, 1, ..., size-1`. -/
def DenseIdx (g : GState) : Prop :=
  g.vertices.map VRec.index = List.range g.vertices.length

/-! ### Parallel-arc bundling (claim C3)

`bundleParallelArcs` first unbundles, clears all incoming lists, then
rebuilds each vertex's outgoing adjacency by grouping its simple outgoing
arcs by head vertex; groups of two or more become one `ParallelArcsBundle`
slot.  `unbundleParallelArcs` removes every bundle and re-adds its members as
simple arcs.  The multiset of the graph's simple arcs is carried by the
outgoing lists (arc enumeration and `numArcs` read only these), so each
vertex is modelled by its outgoing adjacency: the simple list and the
multi-arc list, one entry per bundle.

Modelled from the spec: `ParallelArcsBundle` (graph/parallelarcsbundle.h, not
under src/) is a distinguished arc owning an internal ordered collection of
real arcs sharing one (tail, head) pair; `addArc` appends a member,
`getArcs` appends the members in order to a vector, `clear` empties the
bundle.  A bundle is modelled as its ordered member list.

The `unordered_map` used for grouping is modelled as an insertion-ordered
association list; the claims below are about arc multisets, which do not
depend on the iteration order of the map.  The grouping collects the simple
outgoing arcs; `bundleOutgoingArcs` is only invoked on vertices whose
multi-arc list is empty, which the initial unbundling pass establishes. -/

/-- A vertex's outgoing adjacency for the bundling passes: the simple list
and the multi-arc list, one member list per bundle. -/
structure BOut where
  outgoingArcs : List CArc
  outgoingMultiArcs : List (List CArc)
deriving DecidableEq, Repr

/-- One entry of the grouping map of `bundleOutgoingArcs`: the sole arc seen
so far for a head, or the bundle built for it. -/
inductive GEntry where
  | simple (a : CArc)
  | bundle (ms : List CArc)
deriving DecidableEq, Repr

/-- One iteration of the grouping loop (lines 666-681): look the head up;
a first arc is stored as is; a second arc turns the entry into a bundle of
both; later arcs are appended to the bundle. -/
def groupStep : List (Nat × GEntry) → CArc → List (Nat × GEntry)
  | [], a => [(a.head, GEntry.simple a)]
  | (k, e) :: rest, a =>
    if k = a.head then
      match e with
      | GEntry.simple a0 => (k, GEntry.bundle [a0, a]) :: rest
      | GEntry.bundle ms => (k, GEntry.bundle (ms ++ [a])) :: rest
    else (k, e) :: groupStep rest a

/-- The entries the attach loop (lines 683-694) pushes onto the simple list. -/
def simplesOf (m : List (Nat × GEntry)) : List CArc :=
  m.filterMap (fun p => match p.2 with
    | GEntry.simple a => some a
    | GEntry.bundle _ => none)

/-- The entries the attach loop pushes onto the multi-arc list. -/
def bundlesOf (m : List (Nat × GEntry)) : List (List CArc) :=
  m.filterMap (fun p => match p.2 with
    | GEntry.simple _ => none
    | GEntry.bundle ms => some ms)

/-- `unbundleOutgoingArcs` (lines 697-715): collect the bundles of the
outgoing multi-arc list together with their members, remove each bundle
(`removeArc`, i.e. swap-removal on the multi list), then re-add every member
as a simple arc (`addArc` appends to the simple list). -/
def unbundleOutgoingArcs (v : BOut) : BOut :=
  let arcBundles := v.outgoingMultiArcs
  let arcs := arcBundles.flatten
  { outgoingArcs := v.outgoingArcs ++ arcs,
    outgoingMultiArcs := arcBundles.foldl (fun l b => swapRemove l b) v.outgoingMultiArcs }

/-- `bundleOutgoingArcs` (lines 658-695) on a vertex without bundles: collect
the outgoing simple arcs, clear the outgoing lists, group by head, and attach
each grouping-map entry as a simple arc or a bundle. -/
def bundleOutgoingArcs (v : BOut) : BOut :=
  let m := v.outgoingArcs.foldl groupStep []
  { outgoingArcs := simplesOf m, outgoingMultiArcs := bundlesOf m }

/-- `bundleParallelArcs` (lines 380-391): unbundle every vertex, then bundle
every vertex's outgoing arcs (the incoming lists, cleared and rebuilt in
between, are not part of this view). -/
def bundleParallelArcs (vs : List BOut) : List BOut :=
  (vs.map unbundleOutgoingArcs).map bundleOutgoingArcs

/-- `unbundleParallelArcs` (lines 393-398). -/
def unbundleParallelArcs (vs : List BOut) : List BOut :=
  vs.map unbundleOutgoingArcs

/-- The multiset of the graph's simple arcs (identity, tail, head per arc). -/
def graphSimpleArcs (vs : List BOut) : Multiset CArc :=
  (vs.map (fun v => (v.outgoingArcs : Multiset CArc))).sum

/-- The arcs held by one grouping-map entry, as a multiset. -/
def gentryMS : GEntry → Multiset CArc
  | GEntry.simple a => {a}
  | GEntry.bundle ms => (ms : Multiset CArc)

/-- The arcs held by the whole grouping map. -/
def gmapMS (m : List (Nat × GEntry)) : Multiset CArc :=
  (m.map (fun p => gentryMS p.2)).sum

/-! ### Breadth-first search (claim C7)

`BreadthFirstSearch::resume` (part_000, lines 150-193) maps a per-arc lambda
over the current vertex's arcs.  Vertices and arcs are referred to by
identity; the user callbacks (`onArcDiscovered`, `arcStopCondition`,
`onVertexDiscovered`) and the configuration flags are part of the
configuration record.  The `treeArc` / `nonTreeArc` callback invocations are
recorded as traces of arc identities. -/

structure BfsConfig where
  onUndirectedGraph : Bool
  onReverseGraph : Bool
  computeOrder : Bool
  valueComputation : Bool
  computePropertyValues : Bool
  onArcDiscovered : Nat → Bool
  arcStopCondition : Nat → Bool
  onVertexDiscovered : Nat → Bool

/-- The mutable search state touched by the arc lambda: the discovery
counter, the property map, the discovered flags and the queue (`none` is the
level separator), the stop flag, and the two callback traces. -/
structure BfsState where
  maxBfsNumber : Nat
  property : Nat → Nat
  discovered : Nat → Bool
  queue : List (Option Nat)
  stop : Bool
  treeArcs : List Nat
  nonTreeArcs : List Nat

/-- `getPeer` (lines 143-149): `getOtherEndVertex` on undirected graphs,
`getTail` on the reverse graph, `getHead` otherwise. -/
def bfsPeer (cfg : BfsConfig) (a : CArc) (v : Nat) : Nat :=
  if cfg.onUndirectedGraph then (if v = a.tail then a.head else a.tail)
  else if cfg.onReverseGraph then a.tail
  else a.head

/-- The arc lambda of `resume` (lines 169-192): ask `onArcDiscovered`, fold
`arcStopCondition` into the stop flag, return early on stop or veto;
otherwise, an undiscovered peer gets the incremented counter or the current
vertex's value plus one as property value (when configured), `treeArc`
fires, and unless `onVertexDiscovered` vetoes, the peer is enqueued and
marked discovered; a discovered peer gets `nonTreeArc`. -/
def bfsHandleArc (cfg : BfsConfig) (curr : Nat) (s : BfsState) (a : CArc) : BfsState :=
  let consider := cfg.onArcDiscovered a.aid
  let stop := s.stop || cfg.arcStopCondition a.aid
  let s1 : BfsState := { s with stop := stop }
  if stop || !consider then s1
  else
    let peer := bfsPeer cfg a curr
    if !(s1.discovered peer) then
      let maxBfs := s1.maxBfsNumber + 1
      let prop := if cfg.valueComputation && cfg.computePropertyValues then
          (fun w => if w = peer then
            (if cfg.computeOrder then maxBfs else s1.property curr + 1)
          else s1.property w)
        else s1.property
      let s2 : BfsState :=
        { s1 with
          maxBfsNumber := maxBfs
          property := prop
          treeArcs := s1.treeArcs ++ [a.aid] }
      if !(cfg.onVertexDiscovered peer) then s2
      else
        { s2 with
          queue := s2.queue ++ [some peer]
          discovered := fun w => if w = peer then true else s2.discovered w }
    else { s1 with nonTreeArcs := s1.nonTreeArcs ++ [a.aid] }

/-! ### Depth-first search (claim C8)

`DepthFirstSearch::dfs` (part_001, lines 109-175) visits a vertex, then maps
the per-arc lambda `vm` over its outgoing arcs (forward mode: the peer is the
arc's head).  Vertices and arcs are referred to by identity; `nullptr`
parents are `none`.  The C++ `int` values are `Int` (`-1` sentinels).  The
recursion is modelled with explicit fuel, always sufficient in real runs
(the recursion depth is bounded by the number of vertices). -/

structure DFSResult where
  dfsNumber : Int
  lowNumber : Int
  parent : Option Nat
deriving DecidableEq, Repr

structure DfsConfig where
  computePropertyValues : Bool
  onVertexDiscovered : Nat → Bool
  vertexStopCondition : Nat → Bool
  onArcDiscovered : Nat → Bool
  arcStopCondition : Nat → Bool

/-- The mutable search state: the depth counter (passed by reference), the
property map, the discovered flags, the stop flag, and the `treeArc` /
`nonTreeArc` callback traces. -/
structure DfsState where
  depth : Int
  property : Nat → DFSResult
  discovered : Nat → Bool
  stop : Bool
  treeArcs : List Nat
  nonTreeArcs : List Nat

/-- The per-arc lambda `vm` (lines 130-167), with the recursive `dfs` call
abstracted as `recur`: ask `onArcDiscovered`, fold `arcStopCondition` into
the stop flag, return early on stop or veto; an undiscovered peer `u` gets
`v` recorded as parent (`DFSResult(v)`: numbers `-1`), `treeArc` fires, the
search recurses, and unless it stopped, the child's low-number is folded
into `v`'s low-number if smaller; a discovered peer gets `nonTreeArc`, and
if `u` is not `v`'s own parent, `u`'s discovery number is folded into `v`'s
low-number if smaller. -/
def dfsVm (cfg : DfsConfig) (recur : Nat → DfsState → DfsState) (v : Nat)
    (s : DfsState) (a : CArc) (u : Nat) : DfsState :=
  let consider := cfg.onArcDiscovered a.aid
  let stop := s.stop || cfg.arcStopCondition a.aid
  let s1 : DfsState := { s with stop := stop }
  if stop || !consider then s1
  else if !(s1.discovered u) then
    let s2 : DfsState :=
      if cfg.computePropertyValues then
        { s1 with
          property := fun w =>
            if w = u then { dfsNumber := -1, lowNumber := -1, parent := some v }
            else s1.property w }
      else s1
    let s3 : DfsState := { s2 with treeArcs := s2.treeArcs ++ [a.aid] }
    let s4 := recur u s3
    if s4.stop then s4
    else if cfg.computePropertyValues = true
        ∧ (s4.property u).lowNumber < (s4.property v).lowNumber then
      { s4 with
        property := fun w =>
          if w = v then { s4.property v with lowNumber := (s4.property u).lowNumber }
          else s4.property w }
    else s4
  else
    let s5 : DfsState := { s1 with nonTreeArcs := s1.nonTreeArcs ++ [a.aid] }
    if cfg.computePropertyValues = true ∧ (s5.property v).parent ≠ some u
        ∧ (s5.property u).dfsNumber < (s5.property v).lowNumber then
      { s5 with
        property := fun w =>
          if w = v then { s5.property v with lowNumber := (s5.property u).dfsNumber }
          else s5.property w }
    else s5

/-- `dfs` (lines 109-175) on the forward graph with explicit fuel: mark `v`
discovered, set its discovery and low numbers to the depth, bump the depth,
honour the vertex callbacks, then run `vm` over the outgoing arcs with the
head as peer. -/
def dfsVisit (cfg : DfsConfig) (adj : Nat → List CArc) :
    Nat → Nat → DfsState → DfsState
  | 0, _, s => s
  | fuel + 1, v, s =>
    let s0 : DfsState :=
      { s with discovered := fun w => if w = v then true else s.discovered w }
    let s1 : DfsState :=
      if cfg.computePropertyValues then
        { s0 with
          property := fun w =>
            if w = v then
              { s0.property v with dfsNumber := s0.depth, lowNumber := s0.depth }
            else s0.property w }
      else s0
    let s2 : DfsState := { s1 with depth := s1.depth + 1 }
    if !(cfg.onVertexDiscovered v) then s2
    else
      let s3 : DfsState := { s2 with stop := s2.stop || cfg.vertexStopCondition v }
      if s3.stop then s3
      else (adj v).foldl
        (fun t a => dfsVm cfg (fun w t2 => dfsVisit cfg adj fuel w t2) v t a a.head) s3

/-- The spec's DFS scenario: permissive callbacks with value computation. -/
def dfsCfg4 : DfsConfig :=
  ⟨true, fun _ => true, fun _ => false, fun _ => true, fun _ => false⟩

/-- The spec's DFS scenario: the 4-cycle 0→1→2→3→0, arc `i` starting at
vertex `i`. -/
def dfsAdj4 : Nat → List CArc := fun v =>
  if v = 0 then [⟨0, 0, 1, false⟩]
  else if v = 1 then [⟨1, 1, 2, false⟩]
  else if v = 2 then [⟨2, 2, 3, false⟩]
  else if v = 3 then [⟨3, 3, 0, false⟩]
  else []

/-- The property map reached at vertex 3, right before the back arc 3→0 is
handled: discovery and low numbers 0,1,2,3 along the tree path, parents
along the path, default elsewhere. -/
def dfsProp4 : Nat → DFSResult := fun w =>
  if w = 0 then ⟨0, 0, none⟩
  else if w = 1 then ⟨1, 1, some 0⟩
  else if w = 2 then ⟨2, 2, some 1⟩
  else if w = 3 then ⟨3, 3, some 2⟩
  else ⟨-1, -1, none⟩

/-! ### Theorems -/

theorem getElem_idx_congr {α : Type} (l : List α) {i j : Nat} (hij : i = j)
    (h : i < l.length) : l[i] = l.get ⟨j, hij ▸ h⟩ := by
  subst hij
  rfl

theorem findIndex_eq_none {α : Type} [DecidableEq α] {l : List α} {a : α}
    (h : a ∉ l) : findIndex l a = none := by
  induction l with
  | nil => rfl
  | cons x xs ih =>
    simp only [findIndex]
    rw [if_neg, ih]
    · rfl
    · exact fun hm => h (by simp [hm])
    · exact fun hx => h (by simp [hx])

theorem findIndex_of_mem {α : Type} [DecidableEq α] {l : List α} {a : α}
    (h : a ∈ l) : findIndex l a ≠ none := by
  induction l with
  | nil => simp at h
  | cons x xs ih =>
    by_cases hx : x = a
    · simp [findIndex, hx]
    · have hm : a ∈ xs := by
        rcases List.mem_cons.mp h with h1 | h1
        · exact absurd h1.symm hx
        · exact h1
      simp only [findIndex, if_neg hx]
      intro hcon
      exact ih hm (by simpa using hcon)

theorem swapRemove_of_not_mem {α : Type} [DecidableEq α] {l : List α} {a : α}
    (h : a ∉ l) : swapRemove l a = l := by
  unfold swapRemove
  rw [findIndex_eq_none h]

theorem swapRemove_cons_head {α : Type} [DecidableEq α] (a : α) (xs : List α) :
    swapRemove (a :: xs) a
      = match xs.getLast? with
        | none => []
        | some z => z :: xs.dropLast := by
  cases hxs : xs with
  | nil => simp [swapRemove, findIndex]
  | cons y ys =>
    have hne : xs ≠ [] := by simp [hxs]
    obtain ⟨z, hz⟩ : ∃ z, xs.getLast? = some z :=
      Option.ne_none_iff_exists'.mp (by simpa using hne)
    rw [← hxs]
    have hlast : (a :: xs).getLast? = some z := by
      rw [hxs] at hz ⊢
      exact (List.getLast?_cons_cons ..).trans hz
    have hfi : findIndex (a :: xs) a = some 0 := by simp [findIndex]
    unfold swapRemove
    rw [hfi, hlast, hz]
    show ((a :: xs).set 0 z).dropLast = z :: xs.dropLast
    show (z :: xs).dropLast = z :: xs.dropLast
    rw [hxs]
    rfl

theorem swapRemove_cons_tail {α : Type} [DecidableEq α] {x a : α} (hx : x ≠ a)
    (xs : List α) : swapRemove (x :: xs) a = x :: swapRemove xs a := by
  cases hfi : findIndex xs a with
  | none =>
    have hfi2 : findIndex (x :: xs) a = none := by
      simp [findIndex, if_neg hx, hfi]
    unfold swapRemove
    rw [hfi, hfi2]
  | some i =>
    have hxs_ne : xs ≠ [] := by
      intro h; rw [h] at hfi; simp [findIndex] at hfi
    obtain ⟨z, hz⟩ : ∃ z, xs.getLast? = some z :=
      Option.ne_none_iff_exists'.mp (by simpa using hxs_ne)
    have hfi2 : findIndex (x :: xs) a = some (i + 1) := by
      simp [findIndex, if_neg hx, hfi]
    have hlast : (x :: xs).getLast? = some z := by
      cases hxs : xs with
      | nil => exact absurd hxs hxs_ne
      | cons y ys => rw [← hxs]; rw [hxs] at hz ⊢; exact (List.getLast?_cons_cons ..).trans hz
    unfold swapRemove
    rw [hfi, hfi2, hlast, hz]
    show ((x :: xs).set (i + 1) z).dropLast = x :: (xs.set i z).dropLast
    show (x :: xs.set i z).dropLast = x :: (xs.set i z).dropLast
    have hne2 : xs.set i z ≠ [] := by
      intro h
      exact hxs_ne (List.eq_nil_of_length_eq_zero (by simpa using congrArg List.length h))
    exact List.dropLast_cons_of_ne_nil hne2

/-- Swap-removal removes exactly one (the first) occurrence, up to
permutation: it agrees with `List.erase` as a multiset operation. -/
theorem swapRemove_perm_erase {α : Type} [DecidableEq α] (l : List α) (a : α) :
    (swapRemove l a).Perm (l.erase a) := by
  induction l with
  | nil => simp [swapRemove, findIndex]
  | cons x xs ih =>
    by_cases hx : x = a
    · subst hx
      rw [swapRemove_cons_head, List.erase_cons_head]
      cases hz : xs.getLast? with
      | none =>
        have : xs = [] := by
          cases hxs : xs with
          | nil => rfl
          | cons y ys =>
            rw [hxs] at hz
            obtain ⟨z, hz2⟩ : ∃ z, (y :: ys).getLast? = some z :=
              Option.ne_none_iff_exists'.mp (by simp)
            rw [hz2] at hz
            cases hz
        simp [this]
      | some z =>
        have hdz : xs.dropLast ++ [z] = xs := List.dropLast_append_getLast? z hz
        show (z :: xs.dropLast).Perm xs
        have h1 : (z :: xs.dropLast).Perm (xs.dropLast ++ [z]) :=
          (List.perm_append_singleton z xs.dropLast).symm
        rw [hdz] at h1
        exact h1
    · rw [swapRemove_cons_tail hx, List.erase_cons_tail (by simpa using hx)]
      exact List.Perm.cons x ih

/-! ### Claim C2: the adjacency index invariant -/

theorem arcListInv_empty : ArcListInv emptyArcListState := by
  constructor
  · intro i h
    simp [emptyArcListState] at h
  · intro x _
    rfl

theorem arcListInv_step (s : ArcListState) (op : ArcOp) (hInv : ArcListInv s) :
    ArcListInv (runArcOp s op) := by
  obtain ⟨hAgree, hAbsent⟩ := hInv
  cases op with
  | add a =>
    simp only [runArcOp]
    by_cases hdup : s.list.any (fun e => e.aid = a.aid)
    · rw [if_pos hdup]; exact ⟨hAgree, hAbsent⟩
    · rw [if_neg hdup]
      have hfresh : ∀ e ∈ s.list, e.aid ≠ a.aid := by
        intro e he hc
        exact hdup (List.any_eq_true.mpr ⟨e, he, by simp [hc]⟩)
      constructor
      · intro i h
        simp only [addArcToList, List.length_append, List.length_singleton] at h
        show (if (s.list ++ [a])[i].aid = a.aid then s.list.length
              else s.indexMap (s.list ++ [a])[i].aid) = i
        rcases Nat.lt_succ_iff_lt_or_eq.mp h with hi | hi
        · have hget : (s.list ++ [a])[i] = s.list[i] := List.getElem_append_left hi
          rw [hget, if_neg (hfresh _ (s.list.getElem_mem hi))]
          exact hAgree i hi
        · have hget : (s.list ++ [a])[i] = a :=
            List.getElem_concat_length s.list a i hi (by simp [hi])
          rw [hget, if_pos rfl, hi]
      · intro x hx
        have hxa : a.aid ≠ x := hx a (by simp [addArcToList])
        show (if x = a.aid then s.list.length else s.indexMap x) = NO_INDEX
        rw [if_neg (Ne.symm hxa)]
        exact hAbsent x (fun e he => hx e (by simp [addArcToList, he]))
  | remove a =>
    simp only [runArcOp]
    by_cases hlt : s.indexMap a.aid < s.list.length
    · by_cases heq : s.list[s.indexMap a.aid] = a
      · -- successful removal: swap the back into slot i and pop
        set i := s.indexMap a.aid with hi_def
        have hne : s.list ≠ [] := List.ne_nil_of_length_pos (by omega)
        have hlast : s.list.getLast? = some (s.list.getLast hne) :=
          List.getLast?_eq_getLast s.list hne
        set swap := s.list.getLast hne with hswap_def
        have hlen_pos : 0 < s.list.length := List.length_pos.mpr hne
        have hswap_get : swap = s.list[s.list.length - 1] := by
          rw [hswap_def]; exact List.getLast_eq_getElem s.list hne
        have hswap_idx : s.indexMap swap.aid = s.list.length - 1 := by
          rw [hswap_get]; exact hAgree _ (by omega)
        have hrem : removeArcFromList s.list s.indexMap a =
            (true, (s.list.set i swap).dropLast,
             fun x => if x = a.aid then NO_INDEX
                      else if x = swap.aid then i else s.indexMap x) := by
          unfold removeArcFromList
          rw [dif_pos hlt]
          rw [if_pos heq, hlast]
        rw [hrem]
        have hidx : s.indexMap a.aid = i := hi_def.symm
        constructor
        · intro j hj
          have hjlt : j < s.list.length - 1 := by
            simpa using hj
          have hget : ((s.list.set i swap).dropLast)[j]
              = (s.list.set i swap).get ⟨j, by simpa using Nat.lt_of_lt_of_le hjlt (by simp)⟩ := by
            exact List.getElem_dropLast _ j hj
          show (if ((s.list.set i swap).dropLast)[j].aid = a.aid then NO_INDEX
                else if ((s.list.set i swap).dropLast)[j].aid = swap.aid then i
                else s.indexMap ((s.list.set i swap).dropLast)[j].aid) = j
          rw [hget]
          by_cases hji : i = j
          · have hgs : (s.list.set i swap).get ⟨j, by simp; omega⟩ = swap := by
              simp [List.getElem_set, hji]
            rw [hgs]
            have hsa : swap.aid ≠ a.aid := by
              intro hc
              rw [hc, hidx] at hswap_idx
              omega
            rw [if_neg hsa, if_pos rfl, hji]
          · have hjl : j < s.list.length := by omega
            have hgs : (s.list.set i swap).get ⟨j, by simp; omega⟩ = s.list[j] := by
              simp [List.getElem_set, hji]
            rw [hgs]
            have hea : s.list[j].aid ≠ a.aid := by
              intro hc
              have h1 : s.indexMap s.list[j].aid = j := hAgree j hjl
              rw [hc, hidx] at h1
              exact hji h1
            have hes : s.list[j].aid ≠ swap.aid := by
              intro hc
              have h1 : s.indexMap s.list[j].aid = j := hAgree j hjl
              rw [hc, hswap_idx] at h1
              omega
            rw [if_neg hea, if_neg hes]
            exact hAgree j hjl
        · intro x hx
          show (if x = a.aid then NO_INDEX
                else if x = swap.aid then i else s.indexMap x) = NO_INDEX
          by_cases hxa : x = a.aid
          · rw [if_pos hxa]
          · rw [if_neg hxa]
            by_cases hxs : x = swap.aid
            · -- the back element survives in the shrunk list unless it was the
              -- removed arc itself: both alternatives are impossible here
              exfalso
              by_cases hil : i = s.list.length - 1
              · have hsw : swap = a := by
                  rw [hswap_get]
                  rw [getElem_idx_congr s.list hil.symm (by omega)]
                  exact heq
                exact hxa (by rw [hxs, hsw])
              · have hil2 : i < s.list.length - 1 := by omega
                have hmem : swap ∈ (s.list.set i swap).dropLast := by
                  have h1 : ((s.list.set i swap).dropLast).get ⟨i, by simpa using hil2⟩
                      = swap := by
                    rw [List.get_eq_getElem, List.getElem_dropLast _ i (by simpa using hil2)]
                    simp [List.getElem_set]
                  have hm2 : ((s.list.set i swap).dropLast).get ⟨i, by simpa using hil2⟩
                      ∈ (s.list.set i swap).dropLast := List.get_mem _ _ _
                  rw [h1] at hm2
                  exact hm2
                exact hx swap hmem (by rw [hxs])
            · rw [if_neg hxs]
              refine hAbsent x (fun e he => ?_)
              by_cases hee : e = a
              · rw [hee]; exact fun hc => hxa hc.symm
              · -- e survives the swap-removal
                obtain ⟨j, hjl, hje⟩ := List.mem_iff_getElem.mp he
                have hji : j ≠ i := by
                  intro hc
                  apply hee
                  rw [← hje, ← heq]
                  exact getElem_idx_congr s.list hc hjl
                intro hc
                refine absurd hc (hx e ?_)
                by_cases hjlast : j = s.list.length - 1
                · have hesw : e = swap := by
                    rw [hswap_get, ← hje]
                    exact getElem_idx_congr s.list hjlast (by omega)
                  have hil2 : i < s.list.length - 1 := by omega
                  have h1 : ((s.list.set i swap).dropLast).get ⟨i, by simpa using hil2⟩
                      = swap := by
                    rw [List.get_eq_getElem, List.getElem_dropLast _ i (by simpa using hil2)]
                    simp [List.getElem_set]
                  have hm2 : ((s.list.set i swap).dropLast).get ⟨i, by simpa using hil2⟩
                      ∈ (s.list.set i swap).dropLast := List.get_mem _ _ _
                  rw [h1] at hm2
                  rw [hesw]
                  exact hm2
                · have hjlt : j < s.list.length - 1 := by omega
                  have h1 : ((s.list.set i swap).dropLast).get ⟨j, by simpa using hjlt⟩
                      = e := by
                    rw [List.get_eq_getElem, List.getElem_dropLast _ j (by simpa using hjlt)]
                    rw [← hje]
                    simp [List.getElem_set, Ne.symm hji]
                  have hm2 : ((s.list.set i swap).dropLast).get ⟨j, by simpa using hjlt⟩
                      ∈ (s.list.set i swap).dropLast := List.get_mem _ _ _
                  rw [h1] at hm2
                  exact hm2
      · have hrem : removeArcFromList s.list s.indexMap a
            = (false, s.list, s.indexMap) := by
          unfold removeArcFromList
          rw [dif_pos hlt, if_neg heq]
        rw [hrem]
        exact ⟨hAgree, hAbsent⟩
    · have hrem : removeArcFromList s.list s.indexMap a
          = (false, s.list, s.indexMap) := by
        unfold removeArcFromList
        rw [dif_neg hlt]
      rw [hrem]
      exact ⟨hAgree, hAbsent⟩

theorem arcListInv_run (ops : List ArcOp) : ArcListInv (runArcOps ops) := by
  suffices h : ∀ s, ArcListInv s → ArcListInv (ops.foldl runArcOp s) by
    exact h emptyArcListState arcListInv_empty
  induction ops with
  | nil => intro s hs; exact hs
  | cons op rest ih =>
    intro s hs
    exact ih (runArcOp s op) (arcListInv_step s op hs)

/-- Claim C2: for every sequence of `addArc`/`removeArc` calls, the
adjacency index map agrees with the stored list position for every
still-attached arc (`index[a] == i` iff `list[i] == a`), and removing any
attached arc succeeds by swapping the last list element into the vacated
slot and, when the swapped element is not the removed arc itself, recording
the vacated slot as that element's index. -/
theorem adjacency_index_agrees (ops : List ArcOp) :
    (∀ a ∈ (runArcOps ops).list, ∀ i (h : i < (runArcOps ops).list.length),
        ((runArcOps ops).indexMap a.aid = i ↔ (runArcOps ops).list[i] = a))
    ∧ (∀ a ∈ (runArcOps ops).list, ∀ hne : (runArcOps ops).list ≠ [],
        (removeArcFromList (runArcOps ops).list (runArcOps ops).indexMap a).1 = true
        ∧ (removeArcFromList (runArcOps ops).list (runArcOps ops).indexMap a).2.1
            = (((runArcOps ops).list.set ((runArcOps ops).indexMap a.aid)
                ((runArcOps ops).list.getLast hne)).dropLast)
        ∧ ((runArcOps ops).list.getLast hne ≠ a →
            (removeArcFromList (runArcOps ops).list (runArcOps ops).indexMap a).2.2
                ((runArcOps ops).list.getLast hne).aid
              = (runArcOps ops).indexMap a.aid)) := by
  obtain ⟨hAgree, hAbsent⟩ := arcListInv_run ops
  set s := runArcOps ops with hs_def
  have hpos : ∀ a ∈ s.list, ∀ j (hj : j < s.list.length),
      s.list[j] = a → s.indexMap a.aid = j := by
    intro a _ j hj hja
    rw [← hja]
    exact hAgree j hj
  constructor
  · intro a ha i h
    obtain ⟨j, hj, hja⟩ := List.mem_iff_getElem.mp ha
    constructor
    · intro him
      have : s.indexMap a.aid = j := hpos a ha j hj hja
      rw [him] at this
      rw [← hja]
      exact getElem_idx_congr s.list this h
    · intro hia
      exact hpos a ha i h hia
  · intro a ha hne
    obtain ⟨j, hj, hja⟩ := List.mem_iff_getElem.mp ha
    have him : s.indexMap a.aid = j := hpos a ha j hj hja
    have hlt : s.indexMap a.aid < s.list.length := by omega
    have heq : s.list[s.indexMap a.aid] = a := by
      rw [getElem_idx_congr s.list him hlt]
      exact hja
    have hlast : s.list.getLast? = some (s.list.getLast hne) :=
      List.getLast?_eq_getLast s.list hne
    set swap := s.list.getLast hne with hswap_def
    have hrem : removeArcFromList s.list s.indexMap a =
        (true, (s.list.set (s.indexMap a.aid) swap).dropLast,
         fun x => if x = a.aid then NO_INDEX
                  else if x = swap.aid then s.indexMap a.aid else s.indexMap x) := by
      unfold removeArcFromList
      rw [dif_pos hlt]
      rw [if_pos heq, hlast]
    rw [hrem]
    refine ⟨rfl, rfl, ?_⟩
    intro hswa
    have hlen_pos : 0 < s.list.length := List.length_pos.mpr hne
    have hswap_get : swap = s.list[s.list.length - 1] := by
      rw [hswap_def]; exact List.getLast_eq_getElem s.list hne
    have hswap_idx : s.indexMap swap.aid = s.list.length - 1 := by
      rw [hswap_get]; exact hAgree _ (by omega)
    have hsa : swap.aid ≠ a.aid := by
      intro hc
      rw [hc, him] at hswap_idx
      apply hswa
      rw [hswap_get]
      show s.list.get ⟨s.list.length - 1, by omega⟩ = a
      rw [← getElem_idx_congr s.list hswap_idx hj]
      exact hja
    show (if swap.aid = a.aid then NO_INDEX
          else if swap.aid = swap.aid then s.indexMap a.aid
          else s.indexMap swap.aid) = s.indexMap a.aid
    rw [if_neg hsa, if_pos rfl]

/-- Witness for claim C2: a concrete add/add/remove sequence, checked on the
remaining attached arc. -/
theorem adjacency_index_agrees_witness :
    ((runArcOps [ArcOp.add ⟨0, 0, 1, false⟩, ArcOp.add ⟨1, 0, 2, false⟩,
        ArcOp.remove ⟨0, 0, 1, false⟩]).indexMap 1 = 0
      ↔ (runArcOps [ArcOp.add ⟨0, 0, 1, false⟩, ArcOp.add ⟨1, 0, 2, false⟩,
        ArcOp.remove ⟨0, 0, 1, false⟩]).list.get ⟨0, by decide⟩ = ⟨1, 0, 2, false⟩) :=
  (adjacency_index_agrees [ArcOp.add ⟨0, 0, 1, false⟩, ArcOp.add ⟨1, 0, 2, false⟩,
        ArcOp.remove ⟨0, 0, 1, false⟩]).1 ⟨1, 0, 2, false⟩ (by decide) 0 (by decide)

/-- Claim C5 (code-bug evidence): hibernating a vertex that holds one incoming
simple arc leaves that arc's in-index entry at its stale position instead of
resetting it to the absent sentinel — `CheshireCat::clear`'s second loop
iterates over `incomingArcs` but resets the OUT-index map. -/
theorem hibernate_stale_inIndex :
    (CheshireCat.hibernate c5vertex).incomingArcs = []
    ∧ (CheshireCat.hibernate c5vertex).outgoingArcs = []
    ∧ (CheshireCat.hibernate c5vertex).valid = false
    ∧ c5vertex.inIndex 3 = 0
    ∧ (CheshireCat.hibernate c5vertex).inIndex 3 = 0
    ∧ (0 : Nat) ≠ NO_INDEX
    ∧ (CheshireCat.hibernate c5vertex).outIndex 3 = NO_INDEX :=
  ⟨rfl, rfl, rfl, rfl, rfl, by decide, rfl⟩

/-- Claim C6 (code-bug evidence): deactivating an attached incoming multi-arc
on a vertex that already has one deactivated incoming simple arc records
index 1 for the moved arc, although it lands at position 0 of
`deactivatedIncomingMultiArcs` — line 351 reads the size of the wrong list. -/
theorem deactivateIncoming_index_divergence :
    ∃ c1, CheshireCat.deactivateIncomingArc c6vertex c6arc = Except.ok (true, c1)
      ∧ c1.deactivatedIncomingMultiArcs = [c6arc]
      ∧ c1.multiInIndex c6arc.aid = 1
      ∧ (1 : Nat) ≠ 0 :=
  ⟨_, rfl, rfl, rfl, by decide⟩

/-- Claim C9: `addOutgoingSimpleArc` (and symmetrically
`addIncomingSimpleArc`) raises the endpoint-mismatch error iff consistency
checking is enabled and the arc's tail (head) is not this vertex; on a raise
the vertex state is unchanged, and on success the arc is appended to the
respective list with its index recorded, the other list untouched. -/
theorem addSimpleArc_endpoint_check (c : CheshireCat) (a : CArc) :
    ((c.addOutgoingSimpleArc a).1 = Except.error "Arc has other tail."
        ↔ (c.checkConsisteny = true ∧ a.tail ≠ c.vid))
    ∧ ((c.addOutgoingSimpleArc a).1 = Except.error "Arc has other tail." →
        (c.addOutgoingSimpleArc a).2 = c)
    ∧ ((c.addOutgoingSimpleArc a).1 = Except.ok () →
        (c.addOutgoingSimpleArc a).2.outgoingArcs = c.outgoingArcs ++ [a]
        ∧ (c.addOutgoingSimpleArc a).2.outIndex a.aid = c.outgoingArcs.length
        ∧ (c.addOutgoingSimpleArc a).2.incomingArcs = c.incomingArcs
        ∧ (c.addOutgoingSimpleArc a).2.inIndex = c.inIndex)
    ∧ ((c.addIncomingSimpleArc a).1 = Except.error "Arc has other head."
        ↔ (c.checkConsisteny = true ∧ a.head ≠ c.vid))
    ∧ ((c.addIncomingSimpleArc a).1 = Except.error "Arc has other head." →
        (c.addIncomingSimpleArc a).2 = c)
    ∧ ((c.addIncomingSimpleArc a).1 = Except.ok () →
        (c.addIncomingSimpleArc a).2.incomingArcs = c.incomingArcs ++ [a]
        ∧ (c.addIncomingSimpleArc a).2.inIndex a.aid = c.incomingArcs.length
        ∧ (c.addIncomingSimpleArc a).2.outgoingArcs = c.outgoingArcs
        ∧ (c.addIncomingSimpleArc a).2.outIndex = c.outIndex) := by
  refine ⟨?_, ?_, ?_, ?_, ?_, ?_⟩
  · by_cases h : c.checkConsisteny = true ∧ a.tail ≠ c.vid
    · unfold CheshireCat.addOutgoingSimpleArc
      rw [if_pos h]
      exact ⟨fun _ => h, fun _ => rfl⟩
    · unfold CheshireCat.addOutgoingSimpleArc
      rw [if_neg h]
      constructor
      · intro hc
        exact absurd hc (by simp)
      · intro hc
        exact absurd hc h
  · intro he
    unfold CheshireCat.addOutgoingSimpleArc at he ⊢
    by_cases h : c.checkConsisteny = true ∧ a.tail ≠ c.vid
    · rw [if_pos h]
    · rw [if_neg h] at he
      simp at he
  · intro hok
    unfold CheshireCat.addOutgoingSimpleArc at hok ⊢
    by_cases h : c.checkConsisteny = true ∧ a.tail ≠ c.vid
    · rw [if_pos h] at hok
      simp at hok
    · rw [if_neg h]
      refine ⟨rfl, ?_, rfl, rfl⟩
      show (if a.aid = a.aid then c.outgoingArcs.length else c.outIndex a.aid)
        = c.outgoingArcs.length
      rw [if_pos rfl]
  · by_cases h : c.checkConsisteny = true ∧ a.head ≠ c.vid
    · unfold CheshireCat.addIncomingSimpleArc
      rw [if_pos h]
      exact ⟨fun _ => h, fun _ => rfl⟩
    · unfold CheshireCat.addIncomingSimpleArc
      rw [if_neg h]
      constructor
      · intro hc
        exact absurd hc (by simp)
      · intro hc
        exact absurd hc h
  · intro he
    unfold CheshireCat.addIncomingSimpleArc at he ⊢
    by_cases h : c.checkConsisteny = true ∧ a.head ≠ c.vid
    · rw [if_pos h]
    · rw [if_neg h] at he
      simp at he
  · intro hok
    unfold CheshireCat.addIncomingSimpleArc at hok ⊢
    by_cases h : c.checkConsisteny = true ∧ a.head ≠ c.vid
    · rw [if_pos h] at hok
      simp at hok
    · rw [if_neg h]
      refine ⟨rfl, ?_, rfl, rfl⟩
      show (if a.aid = a.aid then c.incomingArcs.length else c.inIndex a.aid)
        = c.incomingArcs.length
      rw [if_pos rfl]

/-- Witness for claim C9: on a fresh vertex with identity 0, attaching an arc
with tail 0 succeeds and appends; attaching an arc with tail 9 raises. -/
theorem addSimpleArc_endpoint_check_witness :
    ((emptyVertex 0).addOutgoingSimpleArc ⟨1, 0, 5, false⟩).2.outgoingArcs
        = [⟨1, 0, 5, false⟩]
    ∧ ((emptyVertex 0).addOutgoingSimpleArc ⟨2, 9, 5, false⟩).1
        = Except.error "Arc has other tail." :=
  ⟨((addSimpleArc_endpoint_check (emptyVertex 0) ⟨1, 0, 5, false⟩).2.2.1 rfl).1,
   (addSimpleArc_endpoint_check (emptyVertex 0) ⟨2, 9, 5, false⟩).1.mpr (by decide)⟩

/-! ### Claim C1: density of the live vertex sequence -/

theorem updateVertexById_map {β : Type} (vs : List VRec) (t : Nat) (f : VRec → VRec)
    (p : VRec → β) (hp : ∀ w, p (f w) = p w) :
    (updateVertexById vs t f).map p = vs.map p := by
  unfold updateVertexById
  rw [List.map_map]
  refine List.map_congr_left ?_
  intro w _
  by_cases h : w.vid = t
  · simp [h, hp]
  · simp [h]

theorem outStep_map_index (g : GState) (a : Nat) :
    ((removeVertexOutStep g a).vertices).map VRec.index = g.vertices.map VRec.index := by
  unfold removeVertexOutStep hibernateArc
  exact updateVertexById_map _ _ _ VRec.index (fun w => rfl)

theorem inStep_map_index (g : GState) (a : Nat) :
    ((removeVertexInStep g a).vertices).map VRec.index = g.vertices.map VRec.index := by
  unfold removeVertexInStep hibernateArc
  exact updateVertexById_map _ _ _ VRec.index (fun w => rfl)

theorem foldl_outStep_map_index (L : List Nat) (g : GState) :
    ((L.foldl removeVertexOutStep g).vertices).map VRec.index
      = g.vertices.map VRec.index := by
  induction L generalizing g with
  | nil => rfl
  | cons a L ih => rw [List.foldl_cons, ih, outStep_map_index]

theorem foldl_inStep_map_index (L : List Nat) (g : GState) :
    ((L.foldl removeVertexInStep g).vertices).map VRec.index
      = g.vertices.map VRec.index := by
  induction L generalizing g with
  | nil => rfl
  | cons a L ih => rw [List.foldl_cons, ih, inStep_map_index]

theorem detachArcs_map_index (g : GState) (v : VRec) :
    ((removeVertexDetachArcs g v).vertices).map VRec.index
      = g.vertices.map VRec.index := by
  unfold removeVertexDetachArcs
  rw [updateVertexById_map _ v.vid (fun w => { w with incArcs := [] })
    VRec.index (fun w => rfl)]
  rw [foldl_inStep_map_index]
  show (updateVertexById (v.outArcs.foldl removeVertexOutStep g).vertices v.vid
      (fun w => { w with outArcs := [] })).map VRec.index = _
  rw [updateVertexById_map _ v.vid (fun w => { w with outArcs := [] })
    VRec.index (fun w => rfl)]
  rw [foldl_outStep_map_index]

theorem range_set_self (n k : Nat) : (List.range n).set k k = List.range n := by
  refine List.ext_getElem (by simp) ?_
  intro i hi hi2
  rw [List.getElem_set]
  by_cases h : k = i
  · simp [h]
  · simp [h]

theorem removeVertex_denseIdx (g : GState) (k : Nat) (hk : k < g.vertices.length)
    (hg : DenseIdx g) : DenseIdx (removeVertex g g.vertices[k]) := by
  unfold DenseIdx at hg
  have hvk : (g.vertices[k]).index = k := by
    have h2 : (g.vertices.map VRec.index)[k]? = (List.range g.vertices.length)[k]? := by
      rw [hg]
    rw [List.getElem?_eq_getElem (by simpa using hk),
      List.getElem?_eq_getElem (by simpa using hk)] at h2
    have h3 := Option.some.inj h2
    simpa using h3
  set v := g.vertices[k] with hv_def
  set g4 := removeVertexDetachArcs g v with hg4_def
  have hmap4 : g4.vertices.map VRec.index = List.range g.vertices.length := by
    rw [hg4_def, detachArcs_map_index, hg]
  have hlen4 : g4.vertices.length = g.vertices.length := by
    have := congrArg List.length hmap4
    simpa using this
  have hne4 : g4.vertices ≠ [] := by
    intro hcon
    rw [hcon] at hlen4
    simp at hlen4
    omega
  obtain ⟨o, ho⟩ : ∃ o, g4.vertices.getLast? = some o :=
    Option.ne_none_iff_exists'.mp (by simpa using hne4)
  have hrw : removeVertex g v
      = { g4 with
          vertices := (g4.vertices.set v.index { o with index := v.index }).dropLast,
          vertexPool := g4.vertexPool ++ [v.vid] } := by
    show (match g4.vertices.getLast? with
          | none => { g4 with vertexPool := g4.vertexPool ++ [v.vid] }
          | some o => { g4 with
              vertices := (g4.vertices.set v.index { o with index := v.index }).dropLast,
              vertexPool := g4.vertexPool ++ [v.vid] }) = _
    rw [ho]
  rw [hrw]
  unfold DenseIdx
  show ((g4.vertices.set v.index { o with index := v.index }).dropLast).map VRec.index
      = List.range ((g4.vertices.set v.index { o with index := v.index }).dropLast).length
  rw [List.map_dropLast, List.map_set, hmap4]
  show ((List.range g.vertices.length).set v.index v.index).dropLast
      = List.range ((g4.vertices.set v.index { o with index := v.index }).dropLast).length
  rw [range_set_self]
  have hlen_goal : ((g4.vertices.set v.index { o with index := v.index }).dropLast).length
      = g.vertices.length - 1 := by
    simp [hlen4]
  rw [hlen_goal]
  obtain ⟨m, hm⟩ : ∃ m, g.vertices.length = m + 1 :=
    ⟨g.vertices.length - 1, by omega⟩
  rw [hm]
  simp only [Nat.add_sub_cancel]
  rw [List.range_succ]
  exact List.dropLast_concat ..

theorem addVertex_denseIdx (g : GState) (v : VRec) (hg : DenseIdx g) :
    DenseIdx (addVertex g v) := by
  unfold DenseIdx at hg ⊢
  unfold addVertex
  simp [hg, List.range_succ]

theorem recycleOrCreate_vertices (g : GState) :
    (recycleOrCreateIncidenceListVertex g).2.vertices = g.vertices := by
  unfold recycleOrCreateIncidenceListVertex
  cases g.vertexPool.getLast? <;> rfl

theorem runGOp_denseIdx (g : GState) (op : GOp) (hg : DenseIdx g) :
    DenseIdx (runGOp g op) := by
  cases op with
  | addV =>
    show DenseIdx (addVertex (recycleOrCreateIncidenceListVertex g).2 _)
    refine addVertex_denseIdx _ _ ?_
    unfold DenseIdx
    rw [recycleOrCreate_vertices]
    exact hg
  | removeV k =>
    show DenseIdx (if h : k < g.vertices.length then removeVertex g g.vertices[k] else g)
    by_cases h : k < g.vertices.length
    · rw [dif_pos h]
      exact removeVertex_denseIdx g k h hg
    · rw [dif_neg h]
      exact hg

theorem runGOps_denseIdx (ops : List GOp) : DenseIdx (runGOps ops) := by
  suffices h : ∀ g, DenseIdx g → DenseIdx (ops.foldl runGOp g) by
    exact h initialGState rfl
  induction ops with
  | nil => intro g hg; exact hg
  | cons op rest ih =>
    intro g hg
    exact ih (runGOp g op) (runGOp_denseIdx g op hg)

/-- Claim C1: for every sequence of interleaved `addVertex`/`removeVertex`
calls, after each call the live vertex sequence is dense and every live
vertex's stored index equals its position: `liveVertices[i].index == i` for
all `i < size`.  (Every prefix of a call sequence is itself a call sequence,
so quantifying over sequences covers the state after each call.) -/
theorem addVertex_removeVertex_dense (ops : List GOp) (i : Nat)
    (h : i < (runGOps ops).vertices.length) :
    ((runGOps ops).vertices[i]).index = i := by
  have hd := runGOps_denseIdx ops
  unfold DenseIdx at hd
  have h2 : ((runGOps ops).vertices.map VRec.index)[i]?
      = (List.range (runGOps ops).vertices.length)[i]? := by
    rw [hd]
  rw [List.getElem?_eq_getElem (by simpa using h),
    List.getElem?_eq_getElem (by simpa using h)] at h2
  have h3 := Option.some.inj h2
  simpa using h3

/-- Witness for claim C1: two adds followed by a swap-removal of position 0;
the surviving vertex sits at slot 0 with stored index 0. -/
theorem addVertex_removeVertex_dense_witness :
    0 < (runGOps [GOp.addV, GOp.addV, GOp.removeV 0]).vertices.length
    ∧ ((runGOps [GOp.addV, GOp.addV, GOp.removeV 0]).vertices.get
        ⟨0, by decide⟩).index = 0 :=
  ⟨by decide, addVertex_removeVertex_dense [GOp.addV, GOp.addV, GOp.removeV 0] 0 (by decide)⟩

/-- Claim C10: for a vertex whose parent is this graph but whose stored index
is at least the live vertex count, `containsVertex` propagates the
out-of-range error of the positional lookup instead of returning `false`. -/
theorem containsVertex_out_of_range (g : GState) (v : VRec)
    (hp : v.parent = g.graphId) (hi : g.vertices.length ≤ v.index) :
    containsVertex g v = Except.error GErr.outOfRange := by
  unfold containsVertex atVertex
  rw [if_pos hp, dif_neg (by omega)]

/-- Witness for claim C10: a one-vertex graph and a removed-style vertex
record with matching parent and stale index 5. -/
theorem containsVertex_out_of_range_witness :
    containsVertex (runGOps [GOp.addV]) ⟨7, 0, 5, false, [], []⟩
      = Except.error GErr.outOfRange :=
  containsVertex_out_of_range (runGOps [GOp.addV]) ⟨7, 0, 5, false, [], []⟩
    (by decide) (by decide)

/-! ### Claim C4: supporting lemmas for `removeVertex` -/

theorem swapRemove_perm_filter {α : Type} [DecidableEq α] {l : List α}
    (hN : l.Nodup) (a : α) :
    (swapRemove l a).Perm (l.filter (fun b => decide (b ≠ a))) := by
  refine (swapRemove_perm_erase l a).trans ?_
  rw [hN.erase_eq_filter a]
  have hp : ∀ b ∈ l, (b != a) = decide (b ≠ a) := by
    intro b _
    by_cases hba : b = a <;> simp [hba]
  rw [List.filter_congr hp]

theorem swapRemove_nodup {α : Type} [DecidableEq α] {l : List α}
    (hN : l.Nodup) (a : α) : (swapRemove l a).Nodup :=
  ((swapRemove_perm_erase l a).nodup_iff).mpr (hN.erase a)

theorem swapRemove_mem_iff {α : Type} [DecidableEq α] {l : List α}
    (hN : l.Nodup) (a b : α) :
    b ∈ swapRemove l a ↔ (b ∈ l ∧ b ≠ a) := by
  rw [(swapRemove_perm_filter hN a).mem_iff, List.mem_filter]
  simp

theorem updateVertexById_length (vs : List VRec) (t : Nat) (f : VRec → VRec) :
    (updateVertexById vs t f).length = vs.length := by
  unfold updateVertexById
  exact List.length_map ..

theorem updateVertexById_getElem (vs : List VRec) (t : Nat) (f : VRec → VRec)
    (j : Nat) (hj : j < vs.length) (hj2 : j < (updateVertexById vs t f).length) :
    (updateVertexById vs t f)[j] = if vs[j].vid = t then f vs[j] else vs[j] := by
  unfold updateVertexById
  simp

theorem updateVertexById_mem (vs : List VRec) (t : Nat) (f : VRec → VRec)
    {w : VRec} (hw : w ∈ updateVertexById vs t f) :
    ∃ u ∈ vs, w = if u.vid = t then f u else u := by
  unfold updateVertexById at hw
  obtain ⟨u, hu, he⟩ := List.mem_map.mp hw
  exact ⟨u, hu, he.symm⟩

theorem lookupArc_hibernateArc_proj {β : Type} (g : GState) (b a : Nat)
    (p : ARec → β) (hp : ∀ r, p { r with avalid := false } = p r) :
    (lookupArc (hibernateArc g b) a).map p = (lookupArc g a).map p := by
  unfold hibernateArc lookupArc
  rw [List.find?_map, Option.map_map]
  have h1 : (fun r : ARec => decide (r.aid = a))
      ∘ (fun r => if r.aid = b then { r with avalid := false } else r)
      = fun r : ARec => decide (r.aid = a) := by
    funext r
    by_cases h : r.aid = b <;> simp [h]
  have h2 : p ∘ (fun r : ARec => if r.aid = b then { r with avalid := false } else r)
      = p := by
    funext r
    show p (if r.aid = b then { r with avalid := false } else r) = p r
    by_cases h : r.aid = b
    · rw [if_pos h]
      exact hp r
    · rw [if_neg h]
  rw [show ((fun r : ARec => decide (r.aid = a))
      ∘ fun r => if r.aid = b then { r with avalid := false } else r)
      = fun r : ARec => decide (r.aid = a) from h1]
  rw [h2]

theorem headOf_outStep (g : GState) (s a : Nat) :
    headOf (removeVertexOutStep g s) a = headOf g a := by
  unfold headOf removeVertexOutStep
  rw [show (lookupArc (hibernateArc
      { g with vertices := (updateVertexById g.vertices (headOf g s)
          (fun w => { w with incArcs := swapRemove w.incArcs s })) } s) a).map ARec.head
    = (lookupArc { g with vertices := (updateVertexById g.vertices (headOf g s)
          (fun w => { w with incArcs := swapRemove w.incArcs s })) } a).map ARec.head
    from lookupArc_hibernateArc_proj _ s a ARec.head (fun r => rfl)]
  rfl

theorem tailOf_inStep (g : GState) (s a : Nat) :
    tailOf (removeVertexInStep g s) a = tailOf g a := by
  unfold tailOf removeVertexInStep
  rw [show (lookupArc (hibernateArc
      { g with vertices := (updateVertexById g.vertices (tailOf g s)
          (fun w => { w with outArcs := swapRemove w.outArcs s })) } s) a).map ARec.tail
    = (lookupArc { g with vertices := (updateVertexById g.vertices (tailOf g s)
          (fun w => { w with outArcs := swapRemove w.outArcs s })) } a).map ARec.tail
    from lookupArc_hibernateArc_proj _ s a ARec.tail (fun r => rfl)]
  rfl

theorem outStep_map_eraseInc (g : GState) (a : Nat) :
    ((removeVertexOutStep g a).vertices).map eraseInc = g.vertices.map eraseInc := by
  unfold removeVertexOutStep hibernateArc
  exact updateVertexById_map _ _ _ eraseInc (fun w => rfl)

theorem inStep_map_eraseOut (g : GState) (a : Nat) :
    ((removeVertexInStep g a).vertices).map eraseOut = g.vertices.map eraseOut := by
  unfold removeVertexInStep hibernateArc
  exact updateVertexById_map _ _ _ eraseOut (fun w => rfl)

theorem foldl_outStep_map_eraseInc (L : List Nat) (g : GState) :
    ((L.foldl removeVertexOutStep g).vertices).map eraseInc
      = g.vertices.map eraseInc := by
  induction L generalizing g with
  | nil => rfl
  | cons a L ih => rw [List.foldl_cons, ih, outStep_map_eraseInc]

theorem foldl_inStep_map_eraseOut (L : List Nat) (g : GState) :
    ((L.foldl removeVertexInStep g).vertices).map eraseOut
      = g.vertices.map eraseOut := by
  induction L generalizing g with
  | nil => rfl
  | cons a L ih => rw [List.foldl_cons, ih, inStep_map_eraseOut]

theorem map_proj_of_map_proj {l₁ l₂ : List VRec} {q : VRec → VRec}
    (h : l₁.map q = l₂.map q) {β : Type} (p : VRec → β)
    (hp : ∀ w, p (q w) = p w) : l₁.map p = l₂.map p := by
  have h1 : l₁.map p = (l₁.map q).map p := by
    rw [List.map_map]
    exact (List.map_congr_left (fun w _ => (hp w).symm))
  rw [h1, h, List.map_map]
  exact List.map_congr_left (fun w _ => hp w)

theorem outStep_arcPool (g : GState) (a : Nat) :
    (removeVertexOutStep g a).arcPool = g.arcPool ++ [a] := rfl

theorem inStep_arcPool (g : GState) (a : Nat) :
    (removeVertexInStep g a).arcPool = g.arcPool ++ [a] := rfl

theorem foldl_outStep_arcPool (L : List Nat) (g : GState) :
    (L.foldl removeVertexOutStep g).arcPool = g.arcPool ++ L := by
  induction L generalizing g with
  | nil => simp
  | cons a L ih =>
    rw [List.foldl_cons, ih, outStep_arcPool]
    simp

theorem foldl_inStep_arcPool (L : List Nat) (g : GState) :
    (L.foldl removeVertexInStep g).arcPool = g.arcPool ++ L := by
  induction L generalizing g with
  | nil => simp
  | cons a L ih =>
    rw [List.foldl_cons, ih, inStep_arcPool]
    simp

theorem foldl_outStep_numArcs (L : List Nat) (g : GState) :
    (L.foldl removeVertexOutStep g).numArcs = g.numArcs - L.length := by
  induction L generalizing g with
  | nil => simp
  | cons a L ih =>
    rw [List.foldl_cons, ih]
    show g.numArcs - 1 - L.length = _
    rw [Nat.sub_sub]
    simp [Nat.add_comm]

theorem foldl_inStep_numArcs (L : List Nat) (g : GState) :
    (L.foldl removeVertexInStep g).numArcs = g.numArcs - L.length := by
  induction L generalizing g with
  | nil => simp
  | cons a L ih =>
    rw [List.foldl_cons, ih]
    show g.numArcs - 1 - L.length = _
    rw [Nat.sub_sub]
    simp [Nat.add_comm]

/-- The arc ledger after a detach loop: exactly the processed arcs are marked
invalid; identities and endpoints are untouched. -/
theorem foldl_outStep_arcs (L : List Nat) (g : GState) :
    (L.foldl removeVertexOutStep g).arcs
      = g.arcs.map (fun r => if r.aid ∈ L then { r with avalid := false } else r) := by
  induction L generalizing g with
  | nil =>
    simp only [List.foldl_nil]
    have : (fun r : ARec => if r.aid ∈ ([] : List Nat) then { r with avalid := false } else r)
        = id := by
      funext r
      simp
    rw [this, List.map_id]
  | cons a L ih =>
    rw [List.foldl_cons, ih]
    show (g.arcs.map (fun r => if r.aid = a then { r with avalid := false } else r)).map _ = _
    rw [List.map_map]
    refine List.map_congr_left ?_
    intro r _
    by_cases h : r.aid = a
    · simp [h]
    · by_cases h2 : r.aid ∈ L <;> simp [h, h2]

theorem foldl_inStep_arcs (L : List Nat) (g : GState) :
    (L.foldl removeVertexInStep g).arcs
      = g.arcs.map (fun r => if r.aid ∈ L then { r with avalid := false } else r) := by
  induction L generalizing g with
  | nil =>
    simp only [List.foldl_nil]
    have : (fun r : ARec => if r.aid ∈ ([] : List Nat) then { r with avalid := false } else r)
        = id := by
      funext r
      simp
    rw [this, List.map_id]
  | cons a L ih =>
    rw [List.foldl_cons, ih]
    show (g.arcs.map (fun r => if r.aid = a then { r with avalid := false } else r)).map _ = _
    rw [List.map_map]
    refine List.map_congr_left ?_
    intro r _
    by_cases h : r.aid = a
    · simp [h]
    · by_cases h2 : r.aid ∈ L <;> simp [h, h2]

theorem foldl_outStep_vertexPool (L : List Nat) (g : GState) :
    (L.foldl removeVertexOutStep g).vertexPool = g.vertexPool := by
  induction L generalizing g with
  | nil => rfl
  | cons a L ih => rw [List.foldl_cons, ih]; rfl

theorem foldl_inStep_vertexPool (L : List Nat) (g : GState) :
    (L.foldl removeVertexInStep g).vertexPool = g.vertexPool := by
  induction L generalizing g with
  | nil => rfl
  | cons a L ih => rw [List.foldl_cons, ih]; rfl

theorem outStep_vertices_length (g : GState) (a : Nat) :
    (removeVertexOutStep g a).vertices.length = g.vertices.length := by
  have h := congrArg List.length (outStep_map_eraseInc g a)
  simpa using h

theorem inStep_vertices_length (g : GState) (a : Nat) :
    (removeVertexInStep g a).vertices.length = g.vertices.length := by
  have h := congrArg List.length (inStep_map_eraseOut g a)
  simpa using h

theorem foldl_outStep_vertices_length (L : List Nat) (g : GState) :
    (L.foldl removeVertexOutStep g).vertices.length = g.vertices.length := by
  have h := congrArg List.length (foldl_outStep_map_eraseInc L g)
  simpa using h

theorem foldl_inStep_vertices_length (L : List Nat) (g : GState) :
    (L.foldl removeVertexInStep g).vertices.length = g.vertices.length := by
  have h := congrArg List.length (foldl_inStep_map_eraseOut L g)
  simpa using h

theorem outStep_incArcs_perm (g : GState) (a : Nat)
    (hNod : ∀ w ∈ g.vertices, w.incArcs.Nodup)
    (hHead : ∀ w ∈ g.vertices, a ∈ w.incArcs → headOf g a = w.vid)
    (j : Nat) (hj : j < g.vertices.length)
    (hj2 : j < (removeVertexOutStep g a).vertices.length) :
    ((removeVertexOutStep g a).vertices[j]).incArcs.Perm
      ((g.vertices[j]).incArcs.filter (fun b => decide (b ≠ a))) := by
  have hget : (removeVertexOutStep g a).vertices[j]
      = if g.vertices[j].vid = headOf g a
        then { g.vertices[j] with incArcs := swapRemove (g.vertices[j]).incArcs a }
        else g.vertices[j] := by
    show (updateVertexById g.vertices (headOf g a)
        (fun w => { w with incArcs := swapRemove w.incArcs a }))[j] = _
    exact updateVertexById_getElem _ _ _ j hj (by
      rw [updateVertexById_length]
      exact hj)
  rw [hget]
  by_cases hcase : g.vertices[j].vid = headOf g a
  · rw [if_pos hcase]
    exact swapRemove_perm_filter (hNod _ (List.getElem_mem hj)) a
  · rw [if_neg hcase]
    have hna : a ∉ g.vertices[j].incArcs := by
      intro hmem
      exact hcase ((hHead _ (List.getElem_mem hj) hmem)).symm
    rw [List.filter_eq_self.mpr (fun b hb => by
      have : b ≠ a := fun hba => hna (hba ▸ hb)
      simpa using this)]

theorem inStep_outArcs_perm (g : GState) (a : Nat)
    (hNod : ∀ w ∈ g.vertices, w.outArcs.Nodup)
    (hTail : ∀ w ∈ g.vertices, a ∈ w.outArcs → tailOf g a = w.vid)
    (j : Nat) (hj : j < g.vertices.length)
    (hj2 : j < (removeVertexInStep g a).vertices.length) :
    ((removeVertexInStep g a).vertices[j]).outArcs.Perm
      ((g.vertices[j]).outArcs.filter (fun b => decide (b ≠ a))) := by
  have hget : (removeVertexInStep g a).vertices[j]
      = if g.vertices[j].vid = tailOf g a
        then { g.vertices[j] with outArcs := swapRemove (g.vertices[j]).outArcs a }
        else g.vertices[j] := by
    show (updateVertexById g.vertices (tailOf g a)
        (fun w => { w with outArcs := swapRemove w.outArcs a }))[j] = _
    exact updateVertexById_getElem _ _ _ j hj (by
      rw [updateVertexById_length]
      exact hj)
  rw [hget]
  by_cases hcase : g.vertices[j].vid = tailOf g a
  · rw [if_pos hcase]
    exact swapRemove_perm_filter (hNod _ (List.getElem_mem hj)) a
  · rw [if_neg hcase]
    have hna : a ∉ g.vertices[j].outArcs := by
      intro hmem
      exact hcase ((hTail _ (List.getElem_mem hj) hmem)).symm
    rw [List.filter_eq_self.mpr (fun b hb => by
      have : b ≠ a := fun hba => hna (hba ▸ hb)
      simpa using this)]

theorem foldl_outStep_incArcs_perm (L : List Nat) (g : GState)
    (hNod : ∀ w ∈ g.vertices, w.incArcs.Nodup)
    (hHead : ∀ a ∈ L, ∀ w ∈ g.vertices, a ∈ w.incArcs → headOf g a = w.vid)
    (j : Nat) (hj : j < g.vertices.length)
    (hj2 : j < (L.foldl removeVertexOutStep g).vertices.length) :
    ((L.foldl removeVertexOutStep g).vertices[j]).incArcs.Perm
      ((g.vertices[j]).incArcs.filter (fun b => decide (b ∉ L))) := by
  induction L generalizing g with
  | nil =>
    show ((g.vertices[j]).incArcs).Perm _
    rw [List.filter_eq_self.mpr (fun b _ => by simp)]
  | cons a L ih =>
    set g1 := removeVertexOutStep g a with hg1_def
    have hlen1 : g1.vertices.length = g.vertices.length := outStep_vertices_length g a
    have hNod1 : ∀ w ∈ g1.vertices, w.incArcs.Nodup := by
      intro w hw
      obtain ⟨u, hu, he⟩ := updateVertexById_mem _ _ _ hw
      by_cases hcc : u.vid = headOf g a
      · rw [he, if_pos hcc]
        exact swapRemove_nodup (hNod u hu) a
      · rw [he, if_neg hcc]
        exact hNod u hu
    have hHead1 : ∀ b ∈ L, ∀ w ∈ g1.vertices, b ∈ w.incArcs → headOf g1 b = w.vid := by
      intro b hb w hw hbmem
      obtain ⟨u, hu, he⟩ := updateVertexById_mem _ _ _ hw
      rw [hg1_def, headOf_outStep]
      by_cases hcc : u.vid = headOf g a
      · rw [he, if_pos hcc] at hbmem
        have : b ∈ u.incArcs := by
          have h1 := (swapRemove_mem_iff (hNod u hu) a b).mp hbmem
          exact h1.1
        have h2 := hHead b (by simp [hb]) u hu this
        rw [he, if_pos hcc]
        exact h2
      · rw [he, if_neg hcc] at hbmem
        have h2 := hHead b (by simp [hb]) u hu hbmem
        rw [he, if_neg hcc]
        exact h2
    have hstep := outStep_incArcs_perm g a hNod
      (fun w hw hmem => hHead a (by simp) w hw hmem) j hj
      (by rw [← hg1_def]; omega)
    have hih := ih g1 hNod1 hHead1 (by omega) (by
      rw [foldl_outStep_vertices_length]
      omega)
    refine hih.trans ?_
    refine (hstep.filter _).trans ?_
    rw [List.filter_filter]
    rw [List.filter_congr (fun b _ => ?_)]
    by_cases hba : b = a
    · simp [hba]
    · by_cases hbl : b ∈ L <;> simp [hba, hbl]

theorem foldl_inStep_outArcs_perm (L : List Nat) (g : GState)
    (hNod : ∀ w ∈ g.vertices, w.outArcs.Nodup)
    (hTail : ∀ a ∈ L, ∀ w ∈ g.vertices, a ∈ w.outArcs → tailOf g a = w.vid)
    (j : Nat) (hj : j < g.vertices.length)
    (hj2 : j < (L.foldl removeVertexInStep g).vertices.length) :
    ((L.foldl removeVertexInStep g).vertices[j]).outArcs.Perm
      ((g.vertices[j]).outArcs.filter (fun b => decide (b ∉ L))) := by
  induction L generalizing g with
  | nil =>
    show ((g.vertices[j]).outArcs).Perm _
    rw [List.filter_eq_self.mpr (fun b _ => by simp)]
  | cons a L ih =>
    set g1 := removeVertexInStep g a with hg1_def
    have hlen1 : g1.vertices.length = g.vertices.length := inStep_vertices_length g a
    have hNod1 : ∀ w ∈ g1.vertices, w.outArcs.Nodup := by
      intro w hw
      obtain ⟨u, hu, he⟩ := updateVertexById_mem _ _ _ hw
      by_cases hcc : u.vid = tailOf g a
      · rw [he, if_pos hcc]
        exact swapRemove_nodup (hNod u hu) a
      · rw [he, if_neg hcc]
        exact hNod u hu
    have hTail1 : ∀ b ∈ L, ∀ w ∈ g1.vertices, b ∈ w.outArcs → tailOf g1 b = w.vid := by
      intro b hb w hw hbmem
      obtain ⟨u, hu, he⟩ := updateVertexById_mem _ _ _ hw
      rw [hg1_def, tailOf_inStep]
      by_cases hcc : u.vid = tailOf g a
      · rw [he, if_pos hcc] at hbmem
        have : b ∈ u.outArcs := by
          have h1 := (swapRemove_mem_iff (hNod u hu) a b).mp hbmem
          exact h1.1
        have h2 := hTail b (by simp [hb]) u hu this
        rw [he, if_pos hcc]
        exact h2
      · rw [he, if_neg hcc] at hbmem
        have h2 := hTail b (by simp [hb]) u hu hbmem
        rw [he, if_neg hcc]
        exact h2
    have hstep := inStep_outArcs_perm g a hNod
      (fun w hw hmem => hTail a (by simp) w hw hmem) j hj
      (by rw [← hg1_def]; omega)
    have hih := ih g1 hNod1 hTail1 (by omega) (by
      rw [foldl_inStep_vertices_length]
      omega)
    refine hih.trans ?_
    refine (hstep.filter _).trans ?_
    rw [List.filter_filter]
    rw [List.filter_congr (fun b _ => ?_)]
    by_cases hba : b = a
    · simp [hba]
    · by_cases hbl : b ∈ L <;> simp [hba, hbl]

theorem map_eq_getElem {α β : Type} {l₁ l₂ : List α} {p : α → β}
    (h : l₁.map p = l₂.map p) (j : Nat) (hj1 : j < l₁.length) (hj2 : j < l₂.length) :
    p l₁[j] = p l₂[j] := by
  have h2 : (l₁.map p)[j]? = (l₂.map p)[j]? := by rw [h]
  rw [List.getElem?_eq_getElem (by simpa using hj1),
    List.getElem?_eq_getElem (by simpa using hj2)] at h2
  have h3 := Option.some.inj h2
  simpa using h3

theorem denseIdx_getElem {g : GState}
    (hd : g.vertices.map VRec.index = List.range g.vertices.length)
    (k : Nat) (hk : k < g.vertices.length) : (g.vertices[k]).index = k := by
  have h2 : (g.vertices.map VRec.index)[k]? = (List.range g.vertices.length)[k]? := by
    rw [hd]
  rw [List.getElem?_eq_getElem (by simpa using hk),
    List.getElem?_eq_getElem (by simpa using hk)] at h2
  have h3 := Option.some.inj h2
  simpa using h3

theorem vid_inj {g : GState} (hVid : (g.vertices.map VRec.vid).Nodup)
    {i j : Nat} (hi : i < g.vertices.length) (hj : j < g.vertices.length)
    (hij : g.vertices[i].vid = g.vertices[j].vid) : i = j := by
  have hi2 : i < (g.vertices.map VRec.vid).length := by simpa using hi
  have hj2 : j < (g.vertices.map VRec.vid).length := by simpa using hj
  have h1 : (g.vertices.map VRec.vid)[i] = (g.vertices.map VRec.vid)[j] := by
    simpa using hij
  exact (List.Nodup.getElem_inj_iff hVid).mp h1

theorem out_nodup_of_flatten {g : GState}
    (hFlat : ((g.vertices.map VRec.outArcs).flatten).Nodup)
    {w : VRec} (hw : w ∈ g.vertices) : w.outArcs.Nodup := by
  refine List.Nodup.sublist ?_ hFlat
  exact List.sublist_flatten_of_mem (List.mem_map_of_mem VRec.outArcs hw)

theorem out_disjoint {g : GState}
    (hFlat : ((g.vertices.map VRec.outArcs).flatten).Nodup)
    {i j : Nat} (hi : i < g.vertices.length) (hj : j < g.vertices.length)
    (hne : i ≠ j) {a : Nat} (hai : a ∈ g.vertices[i].outArcs)
    (haj : a ∈ g.vertices[j].outArcs) : False := by
  have hpair := (List.nodup_flatten.mp hFlat).2
  rcases Nat.lt_or_ge i j with hlt | hge
  · have hd := List.pairwise_iff_getElem.mp hpair i j (by simpa using hi)
      (by simpa using hj) hlt
    have hd2 : List.Disjoint g.vertices[i].outArcs g.vertices[j].outArcs := by
      simpa using hd
    exact hd2 hai haj
  · have hlt : j < i := by omega
    have hd := List.pairwise_iff_getElem.mp hpair j i (by simpa using hj)
      (by simpa using hi) hlt
    have hd2 : List.Disjoint g.vertices[j].outArcs g.vertices[i].outArcs := by
      simpa using hd
    exact hd2 haj hai

theorem find?_vid_eq (vs : List VRec) (t : Nat) (hN : (vs.map VRec.vid).Nodup)
    (k : Nat) (hk : k < vs.length) (hvk : vs[k].vid = t) :
    vs.find? (fun w => w.vid = t) = some vs[k] := by
  induction vs generalizing k with
  | nil => simp at hk
  | cons w ws ih =>
    cases k with
    | zero =>
      have : w.vid = t := hvk
      simp [List.find?_cons, this]
    | succ k =>
      have hkws : k < ws.length := by simpa using hk
      have hmem : (ws[k]).vid ∈ ws.map VRec.vid := by
        exact List.mem_map_of_mem VRec.vid (List.getElem_mem hkws)
      have hN2 : w.vid ∉ (ws.map VRec.vid) ∧ (ws.map VRec.vid).Nodup := by
        rw [List.map_cons] at hN
        exact List.nodup_cons.mp hN
      have hwt : w.vid ≠ t := by
        intro hc
        apply hN2.1
        rw [hc, ← show (ws[k]).vid = t from hvk]
        exact hmem
      rw [show ((w :: ws).find? (fun x => decide (x.vid = t)))
          = ws.find? (fun x => decide (x.vid = t)) by
        rw [List.find?_cons]
        simp [hwt]]
      exact ih hN2.2 k hkws hvk

theorem mem_set_dropLast {l : List VRec} {w x : VRec} {i : Nat}
    (h : w ∈ (l.set i x).dropLast) : w ∈ l ∨ w = x := by
  have h1 : w ∈ l.set i x := List.dropLast_subset _ h
  exact List.mem_or_eq_of_mem_set h1

theorem tailOf_outStep (g : GState) (s a : Nat) :
    tailOf (removeVertexOutStep g s) a = tailOf g a := by
  unfold tailOf removeVertexOutStep
  rw [show (lookupArc (hibernateArc
      { g with vertices := (updateVertexById g.vertices (headOf g s)
          (fun w => { w with incArcs := swapRemove w.incArcs s })) } s) a).map ARec.tail
    = (lookupArc { g with vertices := (updateVertexById g.vertices (headOf g s)
          (fun w => { w with incArcs := swapRemove w.incArcs s })) } a).map ARec.tail
    from lookupArc_hibernateArc_proj _ s a ARec.tail (fun r => rfl)]
  rfl

theorem headOf_inStep (g : GState) (s a : Nat) :
    headOf (removeVertexInStep g s) a = headOf g a := by
  unfold headOf removeVertexInStep
  rw [show (lookupArc (hibernateArc
      { g with vertices := (updateVertexById g.vertices (tailOf g s)
          (fun w => { w with outArcs := swapRemove w.outArcs s })) } s) a).map ARec.head
    = (lookupArc { g with vertices := (updateVertexById g.vertices (tailOf g s)
          (fun w => { w with outArcs := swapRemove w.outArcs s })) } a).map ARec.head
    from lookupArc_hibernateArc_proj _ s a ARec.head (fun r => rfl)]
  rfl

theorem tailOf_foldl_outStep (L : List Nat) (g : GState) (a : Nat) :
    tailOf (L.foldl removeVertexOutStep g) a = tailOf g a := by
  induction L generalizing g with
  | nil => rfl
  | cons s L ih => rw [List.foldl_cons, ih, tailOf_outStep]

theorem headOf_foldl_outStep (L : List Nat) (g : GState) (a : Nat) :
    headOf (L.foldl removeVertexOutStep g) a = headOf g a := by
  induction L generalizing g with
  | nil => rfl
  | cons s L ih => rw [List.foldl_cons, ih, headOf_outStep]

theorem tailOf_foldl_inStep (L : List Nat) (g : GState) (a : Nat) :
    tailOf (L.foldl removeVertexInStep g) a = tailOf g a := by
  induction L generalizing g with
  | nil => rfl
  | cons s L ih => rw [List.foldl_cons, ih, tailOf_inStep]

theorem find?_aid_map (arcsL : List ARec) (f : ARec → ARec)
    (hf : ∀ r, (f r).aid = r.aid) (a : Nat) :
    (arcsL.map f).find? (fun r => decide (r.aid = a))
      = (arcsL.find? (fun r => decide (r.aid = a))).map f := by
  rw [List.find?_map]
  have hp : ((fun r : ARec => decide (r.aid = a)) ∘ f)
      = (fun r : ARec => decide (r.aid = a)) := by
    funext r
    show decide ((f r).aid = a) = decide (r.aid = a)
    rw [hf r]
  rw [hp]

/-- Claim C4: for every live vertex `v` of a well-formed graph,
`removeVertex(v)` detaches every incident arc from every live adjacency (in
particular from the other endpoint's), hibernates each incident arc into the
arc pool marking it invalid, decrements the live arc count once per incident
arc, removes `v` from the live sequence by swapping the last live vertex into
`v`'s slot with its index updated, and hibernates `v` into the vertex pool. -/
theorem removeVertex_spec (g : GState) (v : VRec) (hWF : WF g) (hv : v ∈ g.vertices) :
    (∀ a ∈ incidentArcs v, ∀ w ∈ (removeVertex g v).vertices,
        a ∉ w.incArcs ∧ a ∉ w.outArcs)
    ∧ (∀ a ∈ incidentArcs v,
        a ∈ (removeVertex g v).arcPool
        ∧ (lookupArc (removeVertex g v) a).map ARec.avalid = some false)
    ∧ (removeVertex g v).numArcs + (incidentArcs v).length = g.numArcs
    ∧ (removeVertex g v).vertices.map (fun w => (w.vid, w.index))
        = ((g.vertices.map (fun w => (w.vid, w.index))).set v.index
            (((g.vertices.getLast?).map VRec.vid).getD 0, v.index)).dropLast
    ∧ v.vid ∈ (removeVertex g v).vertexPool := by
  obtain ⟨hVid, hDense, hIncNod, hFlatNod, hOutChar, hIncChar, hCross, hNum⟩ := hWF
  obtain ⟨k, hk, hkv⟩ := List.mem_iff_getElem.mp hv
  have hvidx : v.index = k := by rw [← hkv]; exact denseIdx_getElem hDense k hk
  have hOutNodAll : ∀ w ∈ g.vertices, w.outArcs.Nodup :=
    fun w hw => out_nodup_of_flatten hFlatNod hw
  have hOutNodup : v.outArcs.Nodup := hOutNodAll v hv
  -- phase 1: detach the outgoing arcs from their heads
  set g1 := v.outArcs.foldl removeVertexOutStep g with hg1_def
  have hlen1 : g1.vertices.length = g.vertices.length :=
    foldl_outStep_vertices_length v.outArcs g
  have hE1 : g1.vertices.map eraseInc = g.vertices.map eraseInc :=
    foldl_outStep_map_eraseInc v.outArcs g
  have hvid1 : g1.vertices.map VRec.vid = g.vertices.map VRec.vid :=
    map_proj_of_map_proj hE1 VRec.vid (fun w => rfl)
  have houtp1 : g1.vertices.map VRec.outArcs = g.vertices.map VRec.outArcs :=
    map_proj_of_map_proj hE1 VRec.outArcs (fun w => rfl)
  have hHeadOut : ∀ a ∈ v.outArcs, ∀ w ∈ g.vertices, a ∈ w.incArcs → headOf g a = w.vid := by
    intro a _ w hw ham
    unfold headOf
    rw [hIncChar w hw a ham]
    rfl
  have hP1 : ∀ j (hj : j < g.vertices.length) (hj1 : j < g1.vertices.length),
      (g1.vertices[j]).incArcs.Perm
        ((g.vertices[j]).incArcs.filter (fun b => decide (b ∉ v.outArcs))) := by
    intro j hj hj1
    exact foldl_outStep_incArcs_perm v.outArcs g hIncNod hHeadOut j hj hj1
  -- phase 2: clear v's outgoing adjacency
  set g2 := { g1 with vertices := (updateVertexById g1.vertices v.vid
      (fun w => { w with outArcs := [] })) } with hg2_def
  have hlen2 : g2.vertices.length = g.vertices.length := by
    show (updateVertexById g1.vertices v.vid _).length = _
    rw [updateVertexById_length]
    exact hlen1
  have hvid2 : g2.vertices.map VRec.vid = g.vertices.map VRec.vid := by
    show (updateVertexById g1.vertices v.vid
      (fun w => { w with outArcs := [] })).map VRec.vid = _
    rw [updateVertexById_map g1.vertices v.vid (fun w => { w with outArcs := [] })
      VRec.vid (fun w => rfl)]
    exact hvid1
  have hincp2 : g2.vertices.map VRec.incArcs = g1.vertices.map VRec.incArcs := by
    show (updateVertexById g1.vertices v.vid
      (fun w => { w with outArcs := [] })).map VRec.incArcs = _
    exact updateVertexById_map g1.vertices v.vid (fun w => { w with outArcs := [] })
      VRec.incArcs (fun w => rfl)
  have hg2get : ∀ j (hj2 : j < g2.vertices.length) (hj1 : j < g1.vertices.length),
      g2.vertices[j] = if g1.vertices[j].vid = v.vid
        then { g1.vertices[j] with outArcs := [] } else g1.vertices[j] := by
    intro j hj2 hj1
    show (updateVertexById g1.vertices v.vid
      (fun w => { w with outArcs := [] }))[j] = _
    exact updateVertexById_getElem _ _ _ j hj1 (by rw [updateVertexById_length]; exact hj1)
  have hvidg : ∀ j (hj : j < g.vertices.length) (hj1 : j < g1.vertices.length),
      (g1.vertices[j]).vid = (g.vertices[j]).vid := by
    intro j hj hj1
    exact map_eq_getElem hvid1 j hj1 hj
  have hmatch : ∀ j (hj : j < g.vertices.length) (hj1 : j < g1.vertices.length),
      ((g1.vertices[j]).vid = v.vid ↔ j = k) := by
    intro j hj hj1
    constructor
    · intro h
      rw [hvidg j hj hj1] at h
      refine vid_inj hVid hj hk ?_
      rw [h, hkv]
    · intro h
      subst h
      rw [hvidg j hj hj1, hkv]
  -- the incoming list v holds when the second loop starts
  set inc1 := ((findVertex g2 v.vid).map VRec.incArcs).getD [] with hinc1_def
  have hk2 : k < g2.vertices.length := by omega
  have hk1 : k < g1.vertices.length := by omega
  have hg2kvid : (g2.vertices[k]).vid = v.vid := by
    have := map_eq_getElem hvid2 k hk2 hk
    rw [this, hkv]
  have hfind : findVertex g2 v.vid = some g2.vertices[k] := by
    show g2.vertices.find? (fun w => w.vid = v.vid) = some g2.vertices[k]
    refine find?_vid_eq g2.vertices v.vid ?_ k hk2 hg2kvid
    rw [hvid2]
    exact hVid
  have hinc1_eq : inc1 = (g2.vertices[k]).incArcs := by
    rw [hinc1_def, hfind]
    rfl
  have hinc2k : (g2.vertices[k]).incArcs = (g1.vertices[k]).incArcs :=
    map_eq_getElem hincp2 k hk2 hk1
  have hPinc1 : inc1.Perm (v.incArcs.filter (fun b => decide (b ∉ v.outArcs))) := by
    rw [hinc1_eq, hinc2k]
    have h1 := hP1 k hk hk1
    rw [hkv] at h1
    exact h1
  have hinc1_mem : ∀ b, b ∈ inc1 ↔ (b ∈ v.incArcs ∧ b ∉ v.outArcs) := by
    intro b
    rw [hPinc1.mem_iff, List.mem_filter]
    simp
  have hinc1_nodup : inc1.Nodup :=
    (hPinc1.nodup_iff).mpr ((hIncNod v hv).filter _)
  -- phase 3: detach the remaining incoming arcs from their tails
  set g3 := inc1.foldl removeVertexInStep g2 with hg3_def
  have hlen3 : g3.vertices.length = g.vertices.length := by
    rw [hg3_def, foldl_inStep_vertices_length]
    exact hlen2
  have hE3 : g3.vertices.map eraseOut = g2.vertices.map eraseOut :=
    foldl_inStep_map_eraseOut inc1 g2
  have hincp3 : g3.vertices.map VRec.incArcs = g2.vertices.map VRec.incArcs :=
    map_proj_of_map_proj hE3 VRec.incArcs (fun w => rfl)
  have hvid3 : g3.vertices.map VRec.vid = g.vertices.map VRec.vid := by
    rw [map_proj_of_map_proj hE3 VRec.vid (fun w => rfl)]
    exact hvid2
  have hOutNod2 : ∀ w ∈ g2.vertices, w.outArcs.Nodup := by
    intro w hw
    have hw2 : w ∈ updateVertexById g1.vertices v.vid (fun x => { x with outArcs := [] }) := hw
    obtain ⟨u, hu, he⟩ := updateVertexById_mem _ _ _ hw2
    obtain ⟨j, hj1, hju⟩ := List.mem_iff_getElem.mp hu
    have hout_u : u.outArcs = (g.vertices.get ⟨j, by omega⟩).outArcs := by
      rw [← hju]
      exact map_eq_getElem houtp1 j hj1 (by omega)
    by_cases hcc : u.vid = v.vid
    · rw [he, if_pos hcc]
      simp
    · rw [he, if_neg hcc]
      rw [hout_u]
      exact hOutNodAll _ (List.getElem_mem (by omega))
  have hTail2 : ∀ a ∈ inc1, ∀ w ∈ g2.vertices, a ∈ w.outArcs → tailOf g2 a = w.vid := by
    intro a ha w hw ham
    have htg : tailOf g2 a = tailOf g a := by
      show tailOf g1 a = tailOf g a
      rw [hg1_def]
      exact tailOf_foldl_outStep v.outArcs g a
    rw [htg]
    obtain ⟨j, hj2, hjw⟩ := List.mem_iff_getElem.mp hw
    have hj1 : j < g1.vertices.length := by omega
    have hj : j < g.vertices.length := by omega
    rw [← hjw] at ham
    rw [hg2get j hj2 hj1] at ham
    by_cases hcc : (g1.vertices[j]).vid = v.vid
    · rw [if_pos hcc] at ham
      simp at ham
    · rw [if_neg hcc] at ham
      have hout_j : (g1.vertices[j]).outArcs = (g.vertices[j]).outArcs :=
        map_eq_getElem houtp1 j hj1 hj
      rw [hout_j] at ham
      have h1 := hOutChar _ (List.getElem_mem hj) a ham
      have h2 : tailOf g a = (g.vertices[j]).vid := by
        unfold tailOf
        rw [h1]
        rfl
      rw [h2, ← hjw]
      rw [hg2get j hj2 hj1, if_neg hcc]
      exact (hvidg j hj hj1).symm
  have hP3 : ∀ j (hj : j < g.vertices.length) (hj3 : j < g3.vertices.length),
      (g3.vertices[j]).outArcs.Perm
        ((g2.vertices[j]).outArcs.filter (fun b => decide (b ∉ inc1))) := by
    intro j hj hj3
    exact foldl_inStep_outArcs_perm inc1 g2 hOutNod2 hTail2 j (by omega) hj3
  -- phase 4: clear v's incoming adjacency
  set g4 := { g3 with vertices := (updateVertexById g3.vertices v.vid
      (fun w => { w with incArcs := [] })) } with hg4_def
  have hlen4 : g4.vertices.length = g.vertices.length := by
    show (updateVertexById g3.vertices v.vid _).length = _
    rw [updateVertexById_length]
    exact hlen3
  have hvid4 : g4.vertices.map VRec.vid = g.vertices.map VRec.vid := by
    show (updateVertexById g3.vertices v.vid
      (fun w => { w with incArcs := [] })).map VRec.vid = _
    rw [updateVertexById_map g3.vertices v.vid (fun w => { w with incArcs := [] })
      VRec.vid (fun w => rfl)]
    exact hvid3
  have houtp4 : g4.vertices.map VRec.outArcs = g3.vertices.map VRec.outArcs := by
    show (updateVertexById g3.vertices v.vid
      (fun w => { w with incArcs := [] })).map VRec.outArcs = _
    exact updateVertexById_map g3.vertices v.vid (fun w => { w with incArcs := [] })
      VRec.outArcs (fun w => rfl)
  have hg4get : ∀ j (hj4 : j < g4.vertices.length) (hj3 : j < g3.vertices.length),
      g4.vertices[j] = if g3.vertices[j].vid = v.vid
        then { g3.vertices[j] with incArcs := [] } else g3.vertices[j] := by
    intro j hj4 hj3
    show (updateVertexById g3.vertices v.vid
      (fun w => { w with incArcs := [] }))[j] = _
    exact updateVertexById_getElem _ _ _ j hj3 (by rw [updateVertexById_length]; exact hj3)
  have hg4eq : removeVertexDetachArcs g v = g4 := rfl
  have hne4 : g4.vertices ≠ [] := by
    intro hc
    rw [hc] at hlen4
    simp at hlen4
    omega
  obtain ⟨o, ho⟩ : ∃ o, g4.vertices.getLast? = some o :=
    Option.ne_none_iff_exists'.mp (by simpa using hne4)
  have ho_mem : o ∈ g4.vertices := List.mem_of_mem_getLast? (by simp [ho])
  have hrw : removeVertex g v
      = { g4 with
          vertices := (g4.vertices.set v.index { o with index := v.index }).dropLast,
          vertexPool := g4.vertexPool ++ [v.vid] } := by
    show (match (removeVertexDetachArcs g v).vertices.getLast? with
          | none => { removeVertexDetachArcs g v with
              vertexPool := (removeVertexDetachArcs g v).vertexPool ++ [v.vid] }
          | some o => { removeVertexDetachArcs g v with
              vertices := ((removeVertexDetachArcs g v).vertices.set v.index
                { o with index := v.index }).dropLast,
              vertexPool := (removeVertexDetachArcs g v).vertexPool ++ [v.vid] }) = _
    rw [hg4eq, ho]
  -- membership characterizations at the end of the arc phases
  have hout4mem : ∀ j (hj : j < g.vertices.length) (hj4 : j < g4.vertices.length) b,
      b ∈ (g4.vertices[j]).outArcs
        ↔ (j ≠ k ∧ b ∈ (g.vertices[j]).outArcs ∧ b ∉ inc1) := by
    intro j hj hj4 b
    have hj3 : j < g3.vertices.length := by omega
    have hj1 : j < g1.vertices.length := by omega
    have h43 : (g4.vertices[j]).outArcs = (g3.vertices[j]).outArcs :=
      map_eq_getElem houtp4 j hj4 hj3
    have hj2 : j < g2.vertices.length := by omega
    rw [h43, (hP3 j hj hj3).mem_iff, List.mem_filter]
    rw [hg2get j hj2 hj1]
    by_cases hcc : (g1.vertices[j]).vid = v.vid
    · rw [if_pos hcc]
      have hjk : j = k := (hmatch j hj hj1).mp hcc
      simp [hjk]
    · rw [if_neg hcc]
      have hjk : j ≠ k := fun hc => hcc ((hmatch j hj hj1).mpr hc)
      have hout_j : (g1.vertices[j]).outArcs = (g.vertices[j]).outArcs :=
        map_eq_getElem houtp1 j hj1 hj
      rw [hout_j]
      simp [hjk]
  have hinc4mem : ∀ j (hj : j < g.vertices.length) (hj4 : j < g4.vertices.length) b,
      b ∈ (g4.vertices[j]).incArcs
        ↔ (j ≠ k ∧ b ∈ (g.vertices[j]).incArcs ∧ b ∉ v.outArcs) := by
    intro j hj hj4 b
    have hj3 : j < g3.vertices.length := by omega
    have hj2 : j < g2.vertices.length := by omega
    have hj1 : j < g1.vertices.length := by omega
    rw [hg4get j hj4 hj3]
    have hvid3j : (g3.vertices[j]).vid = (g.vertices[j]).vid :=
      map_eq_getElem hvid3 j hj3 hj
    by_cases hcc : (g3.vertices[j]).vid = v.vid
    · rw [if_pos hcc]
      have hjk : j = k := by
        rw [hvid3j] at hcc
        refine vid_inj hVid hj hk ?_
        rw [hcc, hkv]
      simp [hjk]
    · rw [if_neg hcc]
      have hjk : j ≠ k := by
        intro hc
        apply hcc
        rw [hvid3j]
        subst hc
        exact congrArg VRec.vid hkv
      have h32 : (g3.vertices[j]).incArcs = (g2.vertices[j]).incArcs :=
        map_eq_getElem hincp3 j hj3 hj2
      have h21 : (g2.vertices[j]).incArcs = (g1.vertices[j]).incArcs :=
        map_eq_getElem hincp2 j hj2 hj1
      rw [h32, h21, (hP1 j hj hj1).mem_iff, List.mem_filter]
      simp [hjk]
  -- bookkeeping equalities
  have hpoolA : g4.arcPool = g.arcPool ++ v.outArcs ++ inc1 := by
    show g3.arcPool = _
    rw [hg3_def, foldl_inStep_arcPool]
    show g1.arcPool ++ inc1 = _
    rw [hg1_def, foldl_outStep_arcPool]
  have hnum4 : g4.numArcs = g.numArcs - v.outArcs.length - inc1.length := by
    show g3.numArcs = _
    rw [hg3_def, foldl_inStep_numArcs]
    show g1.numArcs - inc1.length = _
    rw [hg1_def, foldl_outStep_numArcs]
  have harcs4 : g4.arcs
      = (g.arcs.map (fun r => if r.aid ∈ v.outArcs then { r with avalid := false } else r)).map
          (fun r => if r.aid ∈ inc1 then { r with avalid := false } else r) := by
    show g3.arcs = _
    rw [hg3_def, foldl_inStep_arcs]
    show (g1.arcs).map _ = _
    rw [hg1_def, foldl_outStep_arcs]
  have hvpool4 : g4.vertexPool = g.vertexPool := by
    show g3.vertexPool = _
    rw [hg3_def, foldl_inStep_vertexPool]
    show g1.vertexPool = _
    rw [hg1_def, foldl_outStep_vertexPool]
  -- the five conjuncts
  refine ⟨?_, ?_, ?_, ?_, ?_⟩
  · -- (1) full detachment
    intro a ha w hw
    have hkey : ∀ u ∈ g4.vertices, a ∉ u.incArcs ∧ a ∉ u.outArcs := by
      intro u hu
      obtain ⟨j, hj4, hju⟩ := List.mem_iff_getElem.mp hu
      have hj : j < g.vertices.length := by omega
      have hainc := hinc4mem j hj hj4 a
      have haout := hout4mem j hj hj4 a
      rw [hju] at hainc haout
      have hcases : a ∈ v.outArcs ∨ (a ∈ v.incArcs ∧ a ∉ v.outArcs) := by
        simpa [incidentArcs] using ha
      constructor
      · intro hmem
        obtain ⟨hjk, hmem2, hnout⟩ := hainc.mp hmem
        rcases hcases with hao | hai
        · exact hnout hao
        · obtain ⟨hai1, hai2⟩ := hai
          have h1 := hIncChar _ (List.getElem_mem hj) a hmem2
          have h2 := hIncChar v hv a hai1
          rw [h1] at h2
          have h3 : (g.vertices[j]).vid = (g.vertices[k]).vid := by
            rw [hkv]
            exact Option.some.inj h2
          exact hjk (vid_inj hVid hj hk h3)
      · intro hmem
        obtain ⟨hjk, hmem2, hnin1⟩ := haout.mp hmem
        rcases hcases with hao | hai
        · have haok : a ∈ (g.vertices[k]).outArcs := by rw [hkv]; exact hao
          exact out_disjoint hFlatNod hj hk hjk hmem2 haok
        · obtain ⟨hai1, hai2⟩ := hai
          exact hnin1 ((hinc1_mem a).mpr ⟨hai1, hai2⟩)
    rw [hrw] at hw
    have hw2 := mem_set_dropLast hw
    rcases hw2 with hw3 | hw3
    · exact hkey w hw3
    · have h1 := hkey o ho_mem
      rw [hw3]
      exact ⟨h1.1, h1.2⟩
  · -- (2) hibernated into the arc pool, marked invalid
    intro a ha
    have hcases : a ∈ v.outArcs ∨ (a ∈ v.incArcs ∧ a ∉ v.outArcs) := by
      simpa [incidentArcs] using ha
    have hlook0 : ∃ r, lookupArc g a = some r := by
      rcases hcases with hao | hai
      · have h1 := hOutChar v hv a hao
        obtain ⟨r, hr, _⟩ := Option.map_eq_some'.mp h1
        exact ⟨r, hr⟩
      · have h1 := hIncChar v hv a hai.1
        obtain ⟨r, hr, _⟩ := Option.map_eq_some'.mp h1
        exact ⟨r, hr⟩
    obtain ⟨r, hr⟩ := hlook0
    have hraid : r.aid = a := by
      have := List.find?_some hr
      simpa using this
    constructor
    · have hap : (removeVertex g v).arcPool = g4.arcPool := by rw [hrw]
      rw [hap, hpoolA]
      rcases hcases with hao | hai
      · simp [hao]
      · have : a ∈ inc1 := (hinc1_mem a).mpr ⟨hai.1, hai.2⟩
        simp [this]
    · have harr : (removeVertex g v).arcs = g4.arcs := by rw [hrw]
      have hlook : lookupArc (removeVertex g v) a
          = (((lookupArc g a).map
              (fun r => if r.aid ∈ v.outArcs then { r with avalid := false } else r)).map
              (fun r => if r.aid ∈ inc1 then { r with avalid := false } else r)) := by
        unfold lookupArc
        rw [harr, harcs4]
        rw [find?_aid_map _ _ (fun r => by by_cases hc : r.aid ∈ inc1 <;> simp [hc]) a]
        rw [find?_aid_map _ _ (fun r => by by_cases hc : r.aid ∈ v.outArcs <;> simp [hc]) a]
      rw [hlook, hr]
      rcases hcases with hao | hai
      · have h1 : r.aid ∈ v.outArcs := by rw [hraid]; exact hao
        simp only [Option.map_some', if_pos h1]
        by_cases h2 : r.aid ∈ inc1 <;> simp [h2]
      · have hnout : a ∉ v.outArcs := hai.2
        have h1 : r.aid ∉ v.outArcs := by rw [hraid]; exact hnout
        have h2 : r.aid ∈ inc1 := by
          rw [hraid]
          exact (hinc1_mem a).mpr ⟨hai.1, hnout⟩
        simp only [Option.map_some', if_neg h1, if_pos h2]
  · -- (3) the live arc count drops once per incident arc
    have hlenfil : inc1.length
        = (v.incArcs.filter (fun b => decide (b ∉ v.outArcs))).length :=
      hPinc1.length_eq
    have hinci_len : (incidentArcs v).length = v.outArcs.length + inc1.length := by
      unfold incidentArcs
      rw [List.length_append, hlenfil]
    have hnodup_incident : (incidentArcs v).Nodup := by
      unfold incidentArcs
      refine List.Nodup.append hOutNodup ((hIncNod v hv).filter _) ?_
      intro b hb1 hb2
      obtain ⟨_, hb3⟩ := List.mem_filter.mp hb2
      exact absurd hb1 (by simpa using hb3)
    have hsubf : incidentArcs v ⊆ (g.vertices.map VRec.outArcs).flatten := by
      intro b hb
      have hbc : b ∈ v.outArcs ∨ (b ∈ v.incArcs ∧ b ∉ v.outArcs) := by
        simpa [incidentArcs] using hb
      rcases hbc with hbo | hbi
      · exact List.mem_flatten.mpr ⟨v.outArcs, List.mem_map_of_mem VRec.outArcs hv, hbo⟩
      · obtain ⟨u, hu, hbu⟩ := hCross v hv b hbi.1
        exact List.mem_flatten.mpr ⟨u.outArcs, List.mem_map_of_mem VRec.outArcs hu, hbu⟩
    have hle : (incidentArcs v).length ≤ g.numArcs := by
      rw [hNum]
      calc (incidentArcs v).length = (incidentArcs v).toFinset.card :=
            (List.toFinset_card_of_nodup hnodup_incident).symm
        _ ≤ ((g.vertices.map VRec.outArcs).flatten).toFinset.card := by
            refine Finset.card_le_card ?_
            intro x hx
            rw [List.mem_toFinset] at hx ⊢
            exact hsubf hx
        _ = ((g.vertices.map VRec.outArcs).flatten).length :=
            List.toFinset_card_of_nodup hFlatNod
    have hnumr : (removeVertex g v).numArcs = g4.numArcs := by rw [hrw]
    rw [hnumr, hnum4, hinci_len]
    omega
  · -- (4) swap-removal of v from the live sequence
    have hproj4 : g4.vertices.map (fun w => (w.vid, w.index))
        = g.vertices.map (fun w => (w.vid, w.index)) := by
      show (updateVertexById g3.vertices v.vid
        (fun w => { w with incArcs := [] })).map (fun w => (w.vid, w.index)) = _
      rw [updateVertexById_map g3.vertices v.vid (fun w => { w with incArcs := [] })
        (fun w => (w.vid, w.index)) (fun w => rfl)]
      rw [map_proj_of_map_proj hE3 (fun w => (w.vid, w.index)) (fun w => rfl)]
      show (updateVertexById g1.vertices v.vid
        (fun w => { w with outArcs := [] })).map (fun w => (w.vid, w.index)) = _
      rw [updateVertexById_map g1.vertices v.vid (fun w => { w with outArcs := [] })
        (fun w => (w.vid, w.index)) (fun w => rfl)]
      exact map_proj_of_map_proj hE1 (fun w => (w.vid, w.index)) (fun w => rfl)
    have hovid : ((g.vertices.getLast?).map VRec.vid).getD 0 = o.vid := by
      have h1 : (g4.vertices.map VRec.vid).getLast? = some o.vid := by
        rw [List.getLast?_map, ho]
        rfl
      rw [hvid4, List.getLast?_map] at h1
      rw [h1]
      rfl
    rw [hrw]
    show ((g4.vertices.set v.index { o with index := v.index }).dropLast).map _ = _
    rw [List.map_dropLast, List.map_set, hproj4, hovid]
  · -- (5) v hibernated into the vertex pool
    rw [hrw]
    show v.vid ∈ g4.vertexPool ++ [v.vid]
    simp

/-- Witness for claim C4: removing the middle vertex of a concrete
three-vertex graph with four arcs (one of them a self-loop at the removed
vertex) drops the arc count by the four incident arcs and pools the vertex. -/
theorem removeVertex_spec_witness :
    (removeVertex
        ⟨0, [⟨0, 0, 0, true, [0], [1]⟩, ⟨1, 0, 1, true, [1, 2], [0, 2, 3]⟩,
            ⟨2, 0, 2, true, [3], []⟩],
         [⟨0, 0, 1, true⟩, ⟨1, 1, 0, true⟩, ⟨2, 1, 1, true⟩, ⟨3, 2, 1, true⟩],
         4, 3, [], []⟩
        ⟨1, 0, 1, true, [1, 2], [0, 2, 3]⟩).numArcs
      + (incidentArcs ⟨1, 0, 1, true, [1, 2], [0, 2, 3]⟩).length = 4
    ∧ (1 : Nat) ∈ (removeVertex
        ⟨0, [⟨0, 0, 0, true, [0], [1]⟩, ⟨1, 0, 1, true, [1, 2], [0, 2, 3]⟩,
            ⟨2, 0, 2, true, [3], []⟩],
         [⟨0, 0, 1, true⟩, ⟨1, 1, 0, true⟩, ⟨2, 1, 1, true⟩, ⟨3, 2, 1, true⟩],
         4, 3, [], []⟩
        ⟨1, 0, 1, true, [1, 2], [0, 2, 3]⟩).vertexPool := by
  have h := removeVertex_spec
    ⟨0, [⟨0, 0, 0, true, [0], [1]⟩, ⟨1, 0, 1, true, [1, 2], [0, 2, 3]⟩,
        ⟨2, 0, 2, true, [3], []⟩],
     [⟨0, 0, 1, true⟩, ⟨1, 1, 0, true⟩, ⟨2, 1, 1, true⟩, ⟨3, 2, 1, true⟩],
     4, 3, [], []⟩
    ⟨1, 0, 1, true, [1, 2], [0, 2, 3]⟩
    (by unfold WF; decide) (by decide)
  exact ⟨h.2.2.1, h.2.2.2.2⟩

theorem gmapMS_groupStep (m : List (Nat × GEntry)) (a : CArc) :
    gmapMS (groupStep m a) = gmapMS m + {a} := by
  induction m with
  | nil => simp [groupStep, gmapMS, gentryMS]
  | cons p rest ih =>
    obtain ⟨k, e⟩ := p
    by_cases hk : k = a.head
    · cases e with
      | simple a0 =>
        show gmapMS ((if k = a.head then ((k, GEntry.bundle [a0, a]) : Nat × GEntry) :: rest
            else (k, GEntry.simple a0) :: groupStep rest a)) = _
        rw [if_pos hk]
        simp only [gmapMS, List.map_cons, List.sum_cons, gentryMS]
        have h1 : (([a0, a] : List CArc) : Multiset CArc) = {a0} + {a} := rfl
        rw [h1]
        abel
      | bundle ms =>
        show gmapMS ((if k = a.head then ((k, GEntry.bundle (ms ++ [a])) : Nat × GEntry) :: rest
            else (k, GEntry.bundle ms) :: groupStep rest a)) = _
        rw [if_pos hk]
        simp only [gmapMS, List.map_cons, List.sum_cons, gentryMS]
        have h1 : ((ms ++ [a] : List CArc) : Multiset CArc) = ↑ms + {a} := rfl
        rw [h1]
        abel
    · have hstep : groupStep ((k, e) :: rest) a = (k, e) :: groupStep rest a := by
        cases e with
        | simple a0 =>
          show (if k = a.head then ((k, GEntry.bundle [a0, a]) : Nat × GEntry) :: rest
              else (k, GEntry.simple a0) :: groupStep rest a) = _
          rw [if_neg hk]
        | bundle ms =>
          show (if k = a.head then ((k, GEntry.bundle (ms ++ [a])) : Nat × GEntry) :: rest
              else (k, GEntry.bundle ms) :: groupStep rest a) = _
          rw [if_neg hk]
      rw [hstep]
      show gentryMS e + gmapMS (groupStep rest a) = gentryMS e + gmapMS rest + {a}
      rw [ih]
      abel

theorem gmapMS_foldl (l : List CArc) :
    ∀ m : List (Nat × GEntry), gmapMS (l.foldl groupStep m) = gmapMS m + ↑l := by
  induction l with
  | nil => intro m; simp
  | cons a rest ih =>
    intro m
    refine (ih (groupStep m a)).trans ?_
    rw [gmapMS_groupStep]
    show gmapMS m + {a} + ↑rest = gmapMS m + ↑(a :: rest)
    have h1 : ((a :: rest : List CArc) : Multiset CArc) = {a} + ↑rest := rfl
    rw [h1, add_assoc]

theorem split_gmapMS (m : List (Nat × GEntry)) :
    (↑(simplesOf m) : Multiset CArc) + ↑((bundlesOf m).flatten) = gmapMS m := by
  induction m with
  | nil => rfl
  | cons p rest ih =>
    obtain ⟨k, e⟩ := p
    cases e with
    | simple a =>
      show (↑(a :: simplesOf rest) : Multiset CArc) + ↑((bundlesOf rest).flatten)
          = {a} + gmapMS rest
      rw [← ih]
      simp
    | bundle ms =>
      show (↑(simplesOf rest) : Multiset CArc) + ↑((ms :: bundlesOf rest).flatten)
          = ↑ms + gmapMS rest
      rw [← ih, List.flatten_cons]
      have h1 : ((ms ++ (bundlesOf rest).flatten : List CArc) : Multiset CArc)
          = ↑ms + ↑((bundlesOf rest).flatten) := rfl
      rw [h1]
      abel

theorem foldl_swapRemove_perm {α : Type} [DecidableEq α] :
    ∀ (L s t : List α), s.Perm (L ++ t) →
      (L.foldl (fun l b => swapRemove l b) s).Perm t := by
  intro L
  induction L with
  | nil => intro s t h; simpa using h
  | cons a L ih =>
    intro s t h
    refine ih (swapRemove s a) t ?_
    have h1 : (swapRemove s a).Perm (s.erase a) := swapRemove_perm_erase s a
    have h2 : (s.erase a).Perm ((a :: (L ++ t)).erase a) := h.erase a
    rw [List.erase_cons_head] at h2
    exact h1.trans h2

theorem foldl_swapRemove_self {α : Type} [DecidableEq α] (L : List α) :
    L.foldl (fun l b => swapRemove l b) L = [] := by
  have h := foldl_swapRemove_perm L L [] (by simp)
  exact h.eq_nil

theorem unbundle_arcs (v : BOut) :
    ((unbundleOutgoingArcs v).outgoingArcs : Multiset CArc)
      = ↑v.outgoingArcs + ↑v.outgoingMultiArcs.flatten := by
  show ((v.outgoingArcs ++ v.outgoingMultiArcs.flatten : List CArc) : Multiset CArc) = _
  rfl

theorem unbundle_multi (v : BOut) :
    (unbundleOutgoingArcs v).outgoingMultiArcs = [] :=
  foldl_swapRemove_self v.outgoingMultiArcs

theorem roundtrip_vertex (v : BOut) :
    ((unbundleOutgoingArcs (bundleOutgoingArcs (unbundleOutgoingArcs v))).outgoingArcs
        : Multiset CArc)
      = ↑v.outgoingArcs + ↑v.outgoingMultiArcs.flatten := by
  rw [unbundle_arcs (bundleOutgoingArcs (unbundleOutgoingArcs v))]
  show (↑(simplesOf ((unbundleOutgoingArcs v).outgoingArcs.foldl groupStep []))
        : Multiset CArc)
      + ↑((bundlesOf ((unbundleOutgoingArcs v).outgoingArcs.foldl groupStep [])).flatten)
      = ↑v.outgoingArcs + ↑v.outgoingMultiArcs.flatten
  rw [split_gmapMS, gmapMS_foldl]
  show (0 : Multiset CArc) + ↑(unbundleOutgoingArcs v).outgoingArcs = _
  rw [zero_add, unbundle_arcs]

/-- Claim C3 (amended): on a graph whose vertices hold no bundles yet,
`bundleParallelArcs` followed by `unbundleParallelArcs` restores the exact
multiset of simple arcs (same identities, tails and heads; none lost, none
duplicated).  The unrestricted claim is refuted by
`bundle_unbundle_not_roundtrip_counterexample`: a pre-existing bundle's
members surface as new simple arcs. -/
theorem bundle_unbundle_roundtrip (vs : List BOut)
    (h : ∀ v ∈ vs, v.outgoingMultiArcs = []) :
    graphSimpleArcs (unbundleParallelArcs (bundleParallelArcs vs)) = graphSimpleArcs vs := by
  induction vs with
  | nil => rfl
  | cons v rest ih =>
    have hv : v.outgoingMultiArcs = [] := h v (List.mem_cons_self v rest)
    have hrec := ih (fun w hw => h w (List.mem_cons_of_mem v hw))
    simp only [graphSimpleArcs, unbundleParallelArcs, bundleParallelArcs, List.map_cons,
      List.sum_cons] at hrec ⊢
    rw [roundtrip_vertex, hv, hrec]
    simp

/-- Witness for claim C3: a vertex with three simple outgoing arcs, two of
them parallel (0→1 twice), round-trips to the same simple-arc multiset. -/
theorem bundle_unbundle_roundtrip_witness :
    (∀ v ∈ ([⟨[⟨0, 0, 1, false⟩, ⟨1, 0, 1, false⟩, ⟨2, 0, 2, false⟩], []⟩] : List BOut),
        v.outgoingMultiArcs = [])
    ∧ graphSimpleArcs (unbundleParallelArcs (bundleParallelArcs
        [⟨[⟨0, 0, 1, false⟩, ⟨1, 0, 1, false⟩, ⟨2, 0, 2, false⟩], []⟩]))
      = graphSimpleArcs [⟨[⟨0, 0, 1, false⟩, ⟨1, 0, 1, false⟩, ⟨2, 0, 2, false⟩], []⟩] :=
  ⟨by decide, bundle_unbundle_roundtrip
    [⟨[⟨0, 0, 1, false⟩, ⟨1, 0, 1, false⟩, ⟨2, 0, 2, false⟩], []⟩] (by decide)⟩

/-- Counterexample to claim C3 as stated ("for every graph"): a vertex
already holding a bundle of two arcs and no simple arcs has an empty
simple-arc multiset, but after `bundleParallelArcs` followed by
`unbundleParallelArcs` the two members are simple arcs. -/
theorem bundle_unbundle_not_roundtrip_counterexample :
    graphSimpleArcs (unbundleParallelArcs (bundleParallelArcs
        [⟨[], [[⟨0, 0, 1, false⟩, ⟨1, 0, 1, false⟩]]⟩]))
      ≠ graphSimpleArcs [⟨[], [[⟨0, 0, 1, false⟩, ⟨1, 0, 1, false⟩]]⟩] := by
  decide

/-- Claim C7: when the callbacks do not interfere (no stop pending or
raised, the arc is considered, the peer's discovery is not vetoed) and value
computation is configured, an enumerated arc to an undiscovered peer is a
tree arc — the peer is marked discovered, assigned the incremented running
counter (`computeOrder`) or the current vertex's value plus one, enqueued,
and `treeArc` fires — while an arc to a discovered peer fires `nonTreeArc`
and leaves the rest of the state unchanged. -/
theorem bfs_arc_dichotomy (cfg : BfsConfig) (curr : Nat) (s : BfsState) (a : CArc)
    (hns : s.stop = false) (hstop : cfg.arcStopCondition a.aid = false)
    (hcons : cfg.onArcDiscovered a.aid = true)
    (hveto : cfg.onVertexDiscovered (bfsPeer cfg a curr) = true)
    (hval : cfg.valueComputation = true) (hcpv : cfg.computePropertyValues = true) :
    (s.discovered (bfsPeer cfg a curr) = false →
      (bfsHandleArc cfg curr s a).discovered (bfsPeer cfg a curr) = true
      ∧ (bfsHandleArc cfg curr s a).property (bfsPeer cfg a curr)
          = (if cfg.computeOrder then s.maxBfsNumber + 1 else s.property curr + 1)
      ∧ (bfsHandleArc cfg curr s a).maxBfsNumber = s.maxBfsNumber + 1
      ∧ (bfsHandleArc cfg curr s a).queue = s.queue ++ [some (bfsPeer cfg a curr)]
      ∧ (bfsHandleArc cfg curr s a).treeArcs = s.treeArcs ++ [a.aid]
      ∧ (bfsHandleArc cfg curr s a).nonTreeArcs = s.nonTreeArcs)
    ∧ (s.discovered (bfsPeer cfg a curr) = true →
      (bfsHandleArc cfg curr s a).nonTreeArcs = s.nonTreeArcs ++ [a.aid]
      ∧ (bfsHandleArc cfg curr s a).treeArcs = s.treeArcs
      ∧ (bfsHandleArc cfg curr s a).discovered = s.discovered
      ∧ (bfsHandleArc cfg curr s a).property = s.property
      ∧ (bfsHandleArc cfg curr s a).queue = s.queue
      ∧ (bfsHandleArc cfg curr s a).maxBfsNumber = s.maxBfsNumber) := by
  obtain ⟨mb, prop, disc, q, st, ta, nta⟩ := s
  have hst : st = false := hns
  subst hst
  constructor
  · intro hdisc
    have hd : disc (bfsPeer cfg a curr) = false := hdisc
    refine ⟨?_, ?_, ?_, ?_, ?_, ?_⟩ <;>
      simp [bfsHandleArc, hstop, hcons, hval, hcpv, hveto, hd]
  · intro hdisc
    have hd : disc (bfsPeer cfg a curr) = true := hdisc
    refine ⟨?_, ?_, ?_, ?_, ?_, ?_⟩ <;>
      simp [bfsHandleArc, hstop, hcons, hval, hcpv, hveto, hd]

/-- Witness for claim C7: at current vertex 0 with counter 0, arc 5 : 0→1 to
the undiscovered peer 1, under permissive callbacks with order computation:
peer 1 is discovered with value 1, enqueued behind vertex 0, and the
tree-arc trace records arc 5. -/
theorem bfs_arc_dichotomy_witness :
    ((⟨0, fun _ => 0, fun w => w == 0, [some 0], false, [], []⟩ : BfsState).discovered 1
        = false)
    ∧ ((bfsHandleArc ⟨false, false, true, true, true, fun _ => true, fun _ => false,
          fun _ => true⟩ 0
        ⟨0, fun _ => 0, fun w => w == 0, [some 0], false, [], []⟩
        ⟨5, 0, 1, false⟩).discovered 1 = true
      ∧ (bfsHandleArc ⟨false, false, true, true, true, fun _ => true, fun _ => false,
          fun _ => true⟩ 0
        ⟨0, fun _ => 0, fun w => w == 0, [some 0], false, [], []⟩
        ⟨5, 0, 1, false⟩).property 1 = 1
      ∧ (bfsHandleArc ⟨false, false, true, true, true, fun _ => true, fun _ => false,
          fun _ => true⟩ 0
        ⟨0, fun _ => 0, fun w => w == 0, [some 0], false, [], []⟩
        ⟨5, 0, 1, false⟩).maxBfsNumber = 1
      ∧ (bfsHandleArc ⟨false, false, true, true, true, fun _ => true, fun _ => false,
          fun _ => true⟩ 0
        ⟨0, fun _ => 0, fun w => w == 0, [some 0], false, [], []⟩
        ⟨5, 0, 1, false⟩).queue = [some 0, some 1]
      ∧ (bfsHandleArc ⟨false, false, true, true, true, fun _ => true, fun _ => false,
          fun _ => true⟩ 0
        ⟨0, fun _ => 0, fun w => w == 0, [some 0], false, [], []⟩
        ⟨5, 0, 1, false⟩).treeArcs = [5]
      ∧ (bfsHandleArc ⟨false, false, true, true, true, fun _ => true, fun _ => false,
          fun _ => true⟩ 0
        ⟨0, fun _ => 0, fun w => w == 0, [some 0], false, [], []⟩
        ⟨5, 0, 1, false⟩).nonTreeArcs = []) := by
  have h := (bfs_arc_dichotomy
      ⟨false, false, true, true, true, fun _ => true, fun _ => false, fun _ => true⟩ 0
      ⟨0, fun _ => 0, fun w => w == 0, [some 0], false, [], []⟩
      ⟨5, 0, 1, false⟩ rfl rfl rfl rfl rfl rfl).1 rfl
  exact ⟨rfl, h⟩

/-- Claim C8: when the arc callbacks do not cut handling short (no stop
pending or raised, the arc considered) and value computation is configured,
an enumerated arc at `v` to an undiscovered peer `u` records `v` as `u`'s
parent and fires `treeArc` before recursing, and — unless the recursion
raised stop — the child's resulting low-number is folded into `v`'s
low-number if smaller, nothing else changing; an arc to a discovered peer
that is not `v`'s own parent fires `nonTreeArc` and folds `u`'s discovery
number into `v`'s low-number if smaller, nothing else changing. -/
theorem dfs_arc_dichotomy (cfg : DfsConfig) (recur : Nat → DfsState → DfsState)
    (v u : Nat) (s : DfsState) (a : CArc)
    (hns : s.stop = false) (hstop : cfg.arcStopCondition a.aid = false)
    (hcons : cfg.onArcDiscovered a.aid = true)
    (hcpv : cfg.computePropertyValues = true) :
    (s.discovered u = false →
      ∀ t, t = recur u
          { s with
            property := fun w =>
              if w = u then { dfsNumber := -1, lowNumber := -1, parent := some v }
              else s.property w
            treeArcs := s.treeArcs ++ [a.aid] } →
        (t.stop = true → dfsVm cfg recur v s a u = t)
        ∧ (t.stop = false →
          (dfsVm cfg recur v s a u).property v
              = { dfsNumber := (t.property v).dfsNumber,
                  lowNumber := if (t.property u).lowNumber < (t.property v).lowNumber
                    then (t.property u).lowNumber else (t.property v).lowNumber,
                  parent := (t.property v).parent }
          ∧ (∀ w, w ≠ v → (dfsVm cfg recur v s a u).property w = t.property w)
          ∧ (dfsVm cfg recur v s a u).treeArcs = t.treeArcs
          ∧ (dfsVm cfg recur v s a u).nonTreeArcs = t.nonTreeArcs
          ∧ (dfsVm cfg recur v s a u).discovered = t.discovered
          ∧ (dfsVm cfg recur v s a u).stop = t.stop
          ∧ (dfsVm cfg recur v s a u).depth = t.depth))
    ∧ (s.discovered u = true → (s.property v).parent ≠ some u →
      (dfsVm cfg recur v s a u).nonTreeArcs = s.nonTreeArcs ++ [a.aid]
      ∧ (dfsVm cfg recur v s a u).property v
          = { dfsNumber := (s.property v).dfsNumber,
              lowNumber := if (s.property u).dfsNumber < (s.property v).lowNumber
                then (s.property u).dfsNumber else (s.property v).lowNumber,
              parent := (s.property v).parent }
      ∧ (∀ w, w ≠ v → (dfsVm cfg recur v s a u).property w = s.property w)
      ∧ (dfsVm cfg recur v s a u).treeArcs = s.treeArcs
      ∧ (dfsVm cfg recur v s a u).discovered = s.discovered
      ∧ (dfsVm cfg recur v s a u).depth = s.depth) := by
  obtain ⟨d, prop, disc, st, ta, nta⟩ := s
  have hst : st = false := hns
  subst hst
  constructor
  · intro hu t ht
    have hd : disc u = false := hu
    subst ht
    constructor
    · intro hs4
      simp [dfsVm, hstop, hcons, hcpv, hd, hs4]
    · intro hs4
      by_cases hlt : ((recur u
            { depth := d,
              property := fun w =>
                if w = u then { dfsNumber := -1, lowNumber := -1, parent := some v }
                else prop w,
              discovered := disc, stop := false, treeArcs := ta ++ [a.aid],
              nonTreeArcs := nta }).property u).lowNumber
          < ((recur u
            { depth := d,
              property := fun w =>
                if w = u then { dfsNumber := -1, lowNumber := -1, parent := some v }
                else prop w,
              discovered := disc, stop := false, treeArcs := ta ++ [a.aid],
              nonTreeArcs := nta }).property v).lowNumber
      · refine ⟨?_, ?_, ?_, ?_, ?_, ?_, ?_⟩ <;>
          simp [dfsVm, hstop, hcons, hcpv, hd, hs4, hlt]
        intro w hw
        simp [hw]
      · refine ⟨?_, ?_, ?_, ?_, ?_, ?_, ?_⟩ <;>
          simp [dfsVm, hstop, hcons, hcpv, hd, hs4, hlt]
  · intro hu hpar
    have hd : disc u = true := hu
    have hp : (prop v).parent ≠ some u := hpar
    by_cases hlt : (prop u).dfsNumber < (prop v).lowNumber
    · refine ⟨?_, ?_, ?_, ?_, ?_, ?_⟩ <;>
        simp [dfsVm, hstop, hcons, hcpv, hd, hp, hlt]
      intro w hw
      simp [hw]
    · refine ⟨?_, ?_, ?_, ?_, ?_, ?_⟩ <;>
        simp [dfsVm, hstop, hcons, hcpv, hd, hp, hlt]

/-- Witness for claim C8, the spec's 4-cycle scenario 0→1→2→3→0: handling
the back arc 3→0 at vertex 3 (peer 0 discovered, not 3's parent) fires
`nonTreeArc` and folds discovery number 0 into vertex 3's low-number; and
the full run from vertex 0 yields discovery numbers 0,1,2,3 with vertex 3's
low-number 0. -/
theorem dfs_arc_dichotomy_witness :
    ((⟨4, dfsProp4, fun _ => true, false, [0, 1, 2], []⟩ : DfsState).discovered 0 = true)
    ∧ (dfsProp4 3).parent ≠ some 0
    ∧ (dfsVm dfsCfg4 (fun w t => dfsVisit dfsCfg4 dfsAdj4 4 w t) 3
        ⟨4, dfsProp4, fun _ => true, false, [0, 1, 2], []⟩
        ⟨3, 3, 0, false⟩ 0).nonTreeArcs = [3]
    ∧ (dfsVm dfsCfg4 (fun w t => dfsVisit dfsCfg4 dfsAdj4 4 w t) 3
        ⟨4, dfsProp4, fun _ => true, false, [0, 1, 2], []⟩
        ⟨3, 3, 0, false⟩ 0).property 3 = ⟨3, 0, some 2⟩
    ∧ ((dfsVisit dfsCfg4 dfsAdj4 5 0
        ⟨0, fun _ => ⟨-1, -1, none⟩, fun _ => false, false, [], []⟩).property 0).dfsNumber = 0
    ∧ ((dfsVisit dfsCfg4 dfsAdj4 5 0
        ⟨0, fun _ => ⟨-1, -1, none⟩, fun _ => false, false, [], []⟩).property 1).dfsNumber = 1
    ∧ ((dfsVisit dfsCfg4 dfsAdj4 5 0
        ⟨0, fun _ => ⟨-1, -1, none⟩, fun _ => false, false, [], []⟩).property 2).dfsNumber = 2
    ∧ ((dfsVisit dfsCfg4 dfsAdj4 5 0
        ⟨0, fun _ => ⟨-1, -1, none⟩, fun _ => false, false, [], []⟩).property 3).dfsNumber = 3
    ∧ ((dfsVisit dfsCfg4 dfsAdj4 5 0
        ⟨0, fun _ => ⟨-1, -1, none⟩, fun _ => false, false, [], []⟩).property 3).lowNumber = 0 := by
  have h := (dfs_arc_dichotomy dfsCfg4 (fun w t => dfsVisit dfsCfg4 dfsAdj4 4 w t) 3 0
      ⟨4, dfsProp4, fun _ => true, false, [0, 1, 2], []⟩ ⟨3, 3, 0, false⟩
      rfl rfl rfl rfl).2 rfl (by decide)
  refine ⟨rfl, by decide, h.1, ?_, by decide, by decide, by decide, by decide, by decide⟩
  rw [h.2.1]
  decide
